import Mathlib

/-!
Verification development for the `easy_i2c_adapter` firmware
(`src/easy_i2c_adapter/main.c`).

The C program is embedded shallowly:
* tokens (C strings, `char *`) are `List Char`;
* the global session variables mutated by `decode_token` form `SessionState`;
* side effects (printf/putchar, I2C bus calls, the bitbang probe, calls to the
  output formatters) are recorded as an explicit `List Effect`;
* results of external calls (`i2c_read_blocking` / `i2c_write_blocking`
  success, bytes read, the bitbang ACK sample) and the value of the
  uninitialized local `val` that `sscanf` leaves untouched on a matching
  failure are supplied by an `Env` record, one per `decode_token` call;
* machine integers: `uint8_t` fields are `Nat` kept below 256 by explicit
  `% 256`; `expected_num` (a C `int`) is `Int`.

The status-LED variables (`led_hold_off` …) are external-collaborator state
excluded from the spec's core and are not modelled.
-/

/-! ### Constants from main.c -/

def MODE_ASCII : Nat := 0
def MODE_BIN : Nat := 1
def TOKEN_RESULT_ERROR : Nat := 0
def TOKEN_RESULT_OK : Nat := 1
def TOKEN_RESULT_LINE_COMPLETE : Nat := 2
def TOKEN_PROGRESS_NONE : Nat := 0
def TOKEN_PROGRESS_SEND : Nat := 1
def PICO_ERROR_GENERIC : Int := -1

def M2M_RESPONSE_OK_CHAR : Char := '.'
def M2M_RESPONSE_CONTINUE_CHAR : Char := '&'
def M2M_RESPONSE_ERR_CHAR : Char := 'X'
def M2M_RESPONSE_PROT_ERR_CHAR : Char := '~'

/-- EOL_BIN_MAGIC from main.c: BA DC 0F FE E0 0F F0 0D. -/
def EOL_BIN_MAGIC : List Nat := [0xBA, 0xDC, 0x0F, 0xFE, 0xE0, 0x0F, 0xF0, 0x0D]

/-! ### Session state (the globals of main.c mutated by decode_token) -/

structure SessionState where
  input_mode : Nat
  m2m_resp : Nat
  do_echo : Nat
  i2c_addr : Nat
  expected_num : Int
  byte_buffer : Nat → Nat
  byte_buffer_index : Nat
  token_progress : Nat
  do_repeated_start : Nat

/-- Initial values of the globals (explicit initializers in main.c):
`input_mode = MODE_ASCII`, `m2m_resp = 0`, `do_echo = 1`, `i2c_addr = 0`,
`expected_num = 0`, zeroed byte_buffer, `byte_buffer_index = 0`,
`token_progress = TOKEN_PROGRESS_NONE`, `do_repeated_start = 0`. -/
def initState : SessionState :=
  { input_mode := MODE_ASCII
    m2m_resp := 0
    do_echo := 1
    i2c_addr := 0
    expected_num := 0
    byte_buffer := fun _ => 0
    byte_buffer_index := 0
    token_progress := TOKEN_PROGRESS_NONE
    do_repeated_start := 0 }

/-- Environment of one `decode_token` call: outcomes of the external calls it
may make, plus the value the uninitialized local `val` holds when an
`sscanf` conversion fails and assigns nothing. -/
structure Env where
  junk : Nat
  readOk : Bool
  readBuf : Nat → Nat
  writeOk : Bool
  probeAck : Bool

def env0 : Env :=
  { junk := 0, readOk := true, readBuf := fun _ => 0, writeOk := true, probeAck := false }

/-! ### Effects -/

inductive Effect where
  | putc (c : Char)
  | print (s : String)
  | i2cWrite (addr : Nat) (data : List Nat) (nostop : Bool)
  | i2cRead (addr : Nat) (count : Int)
  | printBufHex (data : List Nat) (count : Int)
  | m2mAsciiOut (data : List Nat) (count : Int)
  | m2mBinOut (data : List Nat) (count : Int)
  | bitbangProbe (val : Nat)
  deriving DecidableEq

def colRed : Effect := .print "\x1b[31m"
def colBlue : Effect := .print "\x1b[34m"
def colReset : Effect := .print "\x1b[0m"

/-- The i2c write transactions recorded in an effect list, in order. -/
def writesOf : List Effect → List (Nat × List Nat × Bool)
  | [] => []
  | .i2cWrite a d ns :: r => (a, d, ns) :: writesOf r
  | _ :: r => writesOf r

/-! ### sscanf-style parsers -/

def tok (s : String) : List Char := s.toList

def isDigitCh (c : Char) : Bool := '0' ≤ c && c ≤ '9'

def digitsVal (l : List Char) : Nat := l.foldl (fun a c => 10 * a + (c.toNat - 48)) 0

/-- Model of `sscanf(t, "%d", &v)` applied to the token remainder: an optional
sign followed by at least one decimal digit; on no digit the conversion fails
and nothing is assigned (`none`). -/
def parseDec (t : List Char) : Option Int :=
  match t with
  | '-' :: r =>
    let ds := r.takeWhile isDigitCh
    if ds.isEmpty then none else some (-(digitsVal ds : Int))
  | '+' :: r =>
    let ds := r.takeWhile isDigitCh
    if ds.isEmpty then none else some ((digitsVal ds : Int))
  | _ =>
    let ds := t.takeWhile isDigitCh
    if ds.isEmpty then none else some ((digitsVal ds : Int))

def hexVal (c : Char) : Option Nat :=
  if 48 ≤ c.toNat && c.toNat ≤ 57 then some (c.toNat - 48)
  else if 65 ≤ c.toNat && c.toNat ≤ 70 then some (c.toNat - 55)
  else if 97 ≤ c.toNat && c.toNat ≤ 102 then some (c.toNat - 87)
  else none

/-- Model of `sscanf(t, "%02X", &v)`: up to two leading hex digits; fails
(assigns nothing) when the first character is not a hex digit. -/
def parseHex2 (t : List Char) : Option Nat :=
  match t with
  | [] => none
  | c1 :: r =>
    match hexVal c1 with
    | none => none
    | some d1 =>
      match r with
      | [] => some d1
      | c2 :: _ =>
        match hexVal c2 with
        | none => some d1
        | some d2 => some (16 * d1 + d2)

/-- A token that is exactly two hex digits, together with its byte value. -/
def hexPairVal (t : List Char) : Option Nat :=
  match t with
  | [c1, c2] =>
    match hexVal c1, hexVal c2 with
    | some d1, some d2 => some (16 * d1 + d2)
    | _, _ => none
  | _ => none

/-- Two-hex-digit rendering of a byte, used by printf "%02X". -/
def hexDigit (d : Nat) : Char :=
  if d < 10 then Char.ofNat (48 + d) else Char.ofNat (55 + d)

def hex2str (n : Nat) : String := String.mk [hexDigit (n / 16 % 16), hexDigit (n % 16)]

/-! ### decode_token (main.c lines 301-531), translated branch by branch -/

def decode_token (e : Env) (s : SessionState) (t : List Char) :
    SessionState × Nat × List Effect :=
  if t = tok "device?" then
    ({ s with token_progress := TOKEN_PROGRESS_NONE
              expected_num := 0
              byte_buffer_index := 0
              do_repeated_start := 0 },
     TOKEN_RESULT_LINE_COMPLETE, [.print "easy_adapter\n\r"])
  else if t = tok "bin" then
    ({ s with input_mode := MODE_BIN },
     TOKEN_RESULT_LINE_COMPLETE,
     if s.m2m_resp ≠ 0 then [.putc M2M_RESPONSE_OK_CHAR]
     else [.print "Switching to binary mode\n"])
  else if (tok "bytes:").isPrefixOf t then
    let v := (parseDec (t.drop 6)).getD s.expected_num
    ({ s with expected_num := v },
     TOKEN_RESULT_LINE_COMPLETE,
     if s.m2m_resp ≠ 0 then [.putc M2M_RESPONSE_OK_CHAR]
     else [colBlue, .print ("Expecting " ++ toString v ++ " bytes\n"), colReset])
  else if t = tok "send+hold" then
    if s.expected_num = 0 then
      (s, TOKEN_RESULT_LINE_COMPLETE, [colRed, .print "No bytes expected\n", colReset])
    else
      ({ s with byte_buffer_index := 0
                token_progress := TOKEN_PROGRESS_SEND
                do_repeated_start := 1 },
       TOKEN_RESULT_OK, [])
  else if (tok "tryaddr:").isPrefixOf t then
    let v : Nat :=
      if (tok "tryaddr:0x").isPrefixOf t then (parseHex2 (t.drop 10)).getD e.junk
      else (((parseDec (t.drop 8)).getD (Int.ofNat e.junk)).emod 4294967296).toNat
    let retval : Nat := if e.probeAck then 1 else 0
    (s, TOKEN_RESULT_LINE_COMPLETE,
     .bitbangProbe v ::
      (if s.m2m_resp ≠ 0 then
        (if s.input_mode = MODE_ASCII then
          (if retval = 0 then [.putc M2M_RESPONSE_PROT_ERR_CHAR]
           else [.putc M2M_RESPONSE_OK_CHAR])
         else [])
       else
        (if retval = 0 then
          [colRed, .print "Protocol error! Does the I2C device exist?\n", colReset]
         else [colBlue, .print ("Device found at address 0x" ++ hex2str v ++ "\n"), colReset])))
  else if t = tok "send" then
    if s.expected_num = 0 then
      (s, TOKEN_RESULT_LINE_COMPLETE, [colRed, .print "No bytes expected\n", colReset])
    else
      ({ s with byte_buffer_index := 0
                token_progress := TOKEN_PROGRESS_SEND
                do_repeated_start := 0 },
       TOKEN_RESULT_OK, [])
  else if t = tok "recv" then
    if s.expected_num = 0 then
      (s, TOKEN_RESULT_LINE_COMPLETE, [colRed, .print "No bytes expected\n", colReset])
    else
      let retval : Int := if e.readOk then s.expected_num else PICO_ERROR_GENERIC
      let data := (List.range s.expected_num.toNat).map e.readBuf
      ({ s with byte_buffer_index := 0, byte_buffer := e.readBuf },
       TOKEN_RESULT_LINE_COMPLETE,
       .i2cRead s.i2c_addr s.expected_num ::
        (if s.m2m_resp ≠ 0 then
          (if s.input_mode = MODE_ASCII then
            (if retval = PICO_ERROR_GENERIC then [.putc M2M_RESPONSE_PROT_ERR_CHAR]
             else [.m2mAsciiOut data s.expected_num])
           else [.m2mBinOut data s.expected_num])
         else
          (if retval = PICO_ERROR_GENERIC then
            [colRed, .print "Protocol error reading bytes! Does the I2C device exist?\n",
             colReset]
           else [.printBufHex data s.expected_num])))
  else if (tok "m2m_resp:").isPrefixOf t then
    if t.getD 9 (Char.ofNat 0) = '1' then
      ({ s with m2m_resp := 1 }, TOKEN_RESULT_LINE_COMPLETE, [.putc M2M_RESPONSE_OK_CHAR])
    else
      ({ s with m2m_resp := 0 }, TOKEN_RESULT_LINE_COMPLETE, [.print "M2M response off\n"])
  else if (tok "addr:0x").isPrefixOf t then
    let v := (parseHex2 (t.drop 7)).getD e.junk
    ({ s with i2c_addr := v % 256 },
     TOKEN_RESULT_LINE_COMPLETE,
     if s.m2m_resp ≠ 0 then [.putc M2M_RESPONSE_OK_CHAR]
     else [colBlue, .print ("I2C address set to 0x" ++ hex2str (v % 256) ++ "\n"), colReset])
  else if (tok "addr:").isPrefixOf t then
    let v := (((parseDec (t.drop 5)).getD (Int.ofNat e.junk)).emod 4294967296).toNat
    ({ s with i2c_addr := v % 256 },
     TOKEN_RESULT_LINE_COMPLETE,
     if s.m2m_resp ≠ 0 then [.putc M2M_RESPONSE_OK_CHAR]
     else [colBlue, .print ("I2C address set to 0x" ++ hex2str (v % 256) ++ "\n"), colReset])
  else if t = tok "noecho" then
    ({ s with do_echo := 0 }, TOKEN_RESULT_ERROR, [colBlue, .print "Echo off\n", colReset])
  else if t = tok "end_tok" then
    (s, TOKEN_RESULT_LINE_COMPLETE,
     if s.token_progress = TOKEN_PROGRESS_SEND then
       (if s.m2m_resp ≠ 0 then [.putc M2M_RESPONSE_CONTINUE_CHAR]
        else
         [colBlue,
          .print ("Remaining bytes expected: " ++
                  toString (s.expected_num - (s.byte_buffer_index : Int)) ++ "\n"),
          colReset])
     else [])
  else if s.token_progress = TOKEN_PROGRESS_SEND then
    if t.length ≠ 2 then
      (s, TOKEN_RESULT_LINE_COMPLETE,
       [colRed, .print ("Invalid byte: " ++ String.mk t ++ "\n"), colReset])
    else
      let v := (parseHex2 t).getD e.junk
      let buf' : Nat → Nat := fun i => if i = s.byte_buffer_index then v else s.byte_buffer i
      let idx' := (s.byte_buffer_index + 1) % 256
      if (idx' : Int) = s.expected_num then
        let data := (List.range s.expected_num.toNat).map buf'
        let retval : Int := if e.writeOk then s.expected_num else PICO_ERROR_GENERIC
        ({ s with byte_buffer := buf'
                  byte_buffer_index := 0
                  expected_num := 0
                  do_repeated_start := 0
                  token_progress := TOKEN_PROGRESS_NONE },
         TOKEN_RESULT_LINE_COMPLETE,
         (if s.m2m_resp = 0 then
           [colBlue, .print ("Sending " ++ toString s.expected_num ++ " bytes\n"), colReset,
            .printBufHex data s.expected_num]
          else []) ++
         [.i2cWrite s.i2c_addr data (s.do_repeated_start != 0)] ++
         (if retval = PICO_ERROR_GENERIC then
           (if s.m2m_resp ≠ 0 then [.putc M2M_RESPONSE_PROT_ERR_CHAR]
            else
             [colRed, .print "Protocol error sending bytes! Does the I2C device exist?\n",
              colReset])
          else if s.m2m_resp ≠ 0 then [.putc M2M_RESPONSE_OK_CHAR] else []))
      else
        ({ s with byte_buffer := buf', byte_buffer_index := idx' }, TOKEN_RESULT_OK, [])
  else
    (s, TOKEN_RESULT_LINE_COMPLETE,
     if s.m2m_resp ≠ 0 then [.putc M2M_RESPONSE_ERR_CHAR]
     else [colRed, .print ("Unknown command: " ++ String.mk t ++ "\n"), colReset])

/-- Process a sequence of tokens through `decode_token`, each with its own
environment, collecting states and effects. -/
def runT : SessionState → List (List Char × Env) → SessionState × List Effect
  | s, [] => (s, [])
  | s, (t, e) :: r =>
    let d := decode_token e s t
    let rest := runT d.1 r
    (rest.1, d.2.2 ++ rest.2)


/-! ### Line/Block framer: scan_uart_input (main.c lines 235-299)

The 305-byte global `uart_buffer` is modelled as a total map `Nat → Nat`
plus the write cursor `uart_buffer_index`; a step stores the incoming byte
and returns the completed-line length (0 when no line is complete yet).
Echo/print side effects are not needed by any claim and are omitted. -/

def uartBufCapacity : Nat := 305

structure FramerState where
  buf : Nat → Nat
  idx : Nat

def initFramer : FramerState := { buf := fun _ => 0, idx := 0 }

/-- memcmp(&uart_buffer[e-8], EOL_BIN_MAGIC, 8) == 0. -/
def magicMatch (b : Nat → Nat) (e : Nat) : Bool :=
  (b (e - 8) == 0xBA) && (b (e - 7) == 0xDC) && (b (e - 6) == 0x0F) && (b (e - 5) == 0xFE) &&
  (b (e - 4) == 0xE0) && (b (e - 3) == 0x0F) && (b (e - 2) == 0xF0) && (b (e - 1) == 0x0D)

/-- Binary-mode branch of scan_uart_input: the byte is stored at the current
index unconditionally, the index is incremented, and only a magic-trailer
match resets it. -/
def scan_uart_bin_step (fs : FramerState) (c : Nat) : FramerState × Nat :=
  let buf' : Nat → Nat := fun i => if i = fs.idx then c else fs.buf i
  let idx' := fs.idx + 1
  if idx' < 8 then ({ buf := buf', idx := idx' }, 0)
  else if magicMatch buf' idx' then ({ buf := buf', idx := 0 }, idx' - 8)
  else ({ buf := buf', idx := idx' }, 0)

/-- ASCII-mode branch of scan_uart_input (echo effects omitted). -/
def scan_uart_ascii_step (fs : FramerState) (c : Nat) : FramerState × Nat :=
  if c = 8 ∨ c = 127 then
    (if fs.idx > 0 then { fs with idx := fs.idx - 1 } else fs, 0)
  else if c = 13 then
    let buf' : Nat → Nat :=
      fun i => if i = fs.idx then 32 else if i = fs.idx + 1 then 0 else fs.buf i
    ({ buf := buf', idx := 0 }, fs.idx + 1)
  else
    let buf' : Nat → Nat := fun i => if i = fs.idx then c else fs.buf i
    let idx' := fs.idx + 1
    if idx' ≥ 300 then ({ buf := buf', idx := 0 }, 0)
    else ({ buf := buf', idx := idx' }, 0)

def binRun : FramerState → List Nat → FramerState
  | fs, [] => fs
  | fs, c :: r => binRun (scan_uart_bin_step fs c).1 r

/-! ### process_line (main.c lines 534-558)

The loop writes each token byte into `char token[20]` at index `j` and, on a
space, writes the terminating 0 at index `j`; `decode_token` is then called
on the accumulated characters and the loop stops if it reports
TOKEN_RESULT_LINE_COMPLETE.  Besides the session state the model returns the
largest index ever written into `token` (0 when no write happened), which is
what claim C7 is about. -/

def tokenBufCapacity : Nat := 20

def plGo (e : Env) : SessionState → List Nat → List Char → Nat → Nat → SessionState × Nat
  | s, [], _, _, w => ((decode_token e s (tok "end_tok")).1, w)
  | s, c :: rest, acc, j, w =>
    if c = 32 then
      let w' := max w j
      let d := decode_token e s acc
      if d.2.1 = TOKEN_RESULT_LINE_COMPLETE then (d.1, w')
      else plGo e d.1 rest [] 0 w'
    else plGo e s rest (acc ++ [Char.ofNat c]) (j + 1) (max w j)

def process_line (e : Env) (s : SessionState) (buf : List Nat) : SessionState × Nat :=
  if buf.length = 0 then (s, 0) else plGo e s buf [] 0 0

/-! ### print_buf_m2m_ascii (main.c lines 115-136)

Emitted output is a list of `MOut`; the host's per-handshake replies are a
list of `Option Char`, `none` standing for the 1-second timeout of
`getchar_timeout_us` (an exhausted list also reads as timeout). -/

inductive MOut where
  | hex (b : Nat)
  | ch (c : Char)
  deriving DecidableEq

def m2mAsciiGo : List Nat → Nat → List (Option Char) → List MOut
  | [], _, _ => [.ch M2M_RESPONSE_OK_CHAR]
  | b :: bs, i, rs =>
    .hex b ::
    (if i % 16 = 15 then
      .ch M2M_RESPONSE_CONTINUE_CHAR ::
      (let r := rs.headD none
       if r = some M2M_RESPONSE_ERR_CHAR then [.ch M2M_RESPONSE_OK_CHAR]
       else if r ≠ some M2M_RESPONSE_CONTINUE_CHAR then [.ch M2M_RESPONSE_ERR_CHAR]
       else m2mAsciiGo bs (i + 1) rs.tail)
     else m2mAsciiGo bs (i + 1) rs)

def print_buf_m2m_ascii (bs : List Nat) (rs : List (Option Char)) : List MOut :=
  m2mAsciiGo bs 0 rs

/-- The byte values hex-printed in an output stream, in order. -/
def hexEmitted (l : List MOut) : List Nat :=
  l.filterMap fun o => match o with | .hex b => some b | _ => none

/-- Number of CONTINUE sentinels in an output stream. -/
def contCount (l : List MOut) : Nat :=
  l.count (MOut.ch M2M_RESPONSE_CONTINUE_CHAR)

/-- Number of leading CONTINUE grants in a reply list. -/
def grantedCount : List (Option Char) → Nat
  | [] => 0
  | r :: rest => if r = some M2M_RESPONSE_CONTINUE_CHAR then grantedCount rest + 1 else 0

/-- Number of chunk handshakes in positions i, i+1, …, i+n-1
(those congruent to 15 mod 16). -/
def handshakeCount : Nat → Nat → Nat
  | _, 0 => 0
  | i, n + 1 => (if i % 16 = 15 then 1 else 0) + handshakeCount (i + 1) n

/-! ### bitbang_i2c_addr (main.c lines 178-231)

The GPIO manipulation is recorded as a trace of `GEff` events; the level the
data line floats at during the acknowledge pulse (`gpio_get`) is the
parameter `sdaHigh`. -/

def I2C_SDA_PIN : Nat := 14
def I2C_SCL_PIN : Nat := 15

inductive GEff where
  | gpioInit (p : Nat)
  | pullupGpio (p : Nat)
  | pulldownGpio (p : Nat)
  | sleepUs (n : Nat)
  | sampleSda
  | i2cInitPeriph
  | setFuncI2C (p : Nat)
  | gpioPullUp (p : Nat)
  deriving DecidableEq

/-- The 8-iteration address loop: drive SDA from the MSB of `a`, pulse SCL,
then shift `a` left one bit (uint8 arithmetic). -/
def sendAddrBits : Nat → Nat → List GEff
  | _, 0 => []
  | a, k + 1 =>
    (if a &&& 0x80 ≠ 0 then GEff.pullupGpio I2C_SDA_PIN else GEff.pulldownGpio I2C_SDA_PIN) ::
    GEff.sleepUs 5 :: GEff.pullupGpio I2C_SCL_PIN :: GEff.sleepUs 5 ::
    GEff.pulldownGpio I2C_SCL_PIN :: GEff.sleepUs 5 ::
    sendAddrBits (a * 2 % 256) k

def bitbangStartSeq : List GEff :=
  [.gpioInit I2C_SDA_PIN, .gpioInit I2C_SCL_PIN, .pullupGpio I2C_SDA_PIN,
   .pullupGpio I2C_SCL_PIN, .pulldownGpio I2C_SDA_PIN, .sleepUs 5,
   .pulldownGpio I2C_SCL_PIN, .sleepUs 5]

def bitbangAckSeq : List GEff :=
  [.pullupGpio I2C_SDA_PIN, .sleepUs 5, .pullupGpio I2C_SCL_PIN, .sleepUs 5, .sampleSda,
   .pulldownGpio I2C_SCL_PIN, .sleepUs 5, .pullupGpio I2C_SCL_PIN, .sleepUs 5,
   .pullupGpio I2C_SDA_PIN, .sleepUs 5]

/-- Restoration to peripheral I2C mode: i2c_init, both pins to GPIO_FUNC_I2C,
both pull-ups re-enabled. -/
def bitbangRestoreSeq : List GEff :=
  [.i2cInitPeriph, .setFuncI2C I2C_SDA_PIN, .setFuncI2C I2C_SCL_PIN,
   .gpioPullUp I2C_SDA_PIN, .gpioPullUp I2C_SCL_PIN]

def bitbang_i2c_addr (val : Nat) (sdaHigh : Bool) : Nat × List GEff :=
  let addr := val % 256
  let addr2 := (addr * 2 % 256) ||| 1
  let ack : Nat := if sdaHigh then 1 else 0
  ((if ack = 0 then 1 else 0),
   bitbangStartSeq ++ sendAddrBits addr2 8 ++ bitbangAckSeq ++ bitbangRestoreSeq)

/-- SDA drive actions in a GPIO trace: `true` for released-high (pull-up),
`false` for driven low. -/
def sdaDrivesOf (l : List GEff) : List Bool :=
  l.filterMap fun g =>
    match g with
    | .pullupGpio p => if p = I2C_SDA_PIN then some true else none
    | .pulldownGpio p => if p = I2C_SDA_PIN then some false else none
    | _ => none

/-- A token that string-matches one of the named commands of the dispatch
table (the guards of decode_token that precede the payload-byte branch). -/
def namedCommand (t : List Char) : Bool :=
  t == tok "device?" || t == tok "bin" || (tok "bytes:").isPrefixOf t ||
  t == tok "send+hold" || (tok "tryaddr:").isPrefixOf t || t == tok "send" ||
  t == tok "recv" || (tok "m2m_resp:").isPrefixOf t || (tok "addr:0x").isPrefixOf t ||
  (tok "addr:").isPrefixOf t || t == tok "noecho" || t == tok "end_tok"

/-- A send in progress expecting 3 bytes, none supplied yet. -/
def sendState3 : SessionState :=
  { initState with expected_num := 3, token_progress := TOKEN_PROGRESS_SEND }

/-- M2M response mode with binary input framing, two bytes expected. -/
def recvFailBinState : SessionState :=
  { initState with expected_num := 2, m2m_resp := 1, input_mode := MODE_BIN }

/-- Environment in which the bus read fails (PICO_ERROR_GENERIC). -/
def readFailEnv : Env := { env0 with readOk := false }

/-- A session state with a declared transfer size but no send in progress. -/
def expectState (n : Int) : SessionState := { initState with expected_num := n }

/-- Discipline on a token run under which the session invariant is claimed:
every `bytes:`-prefixed token is issued while no send is in progress, and any
byte count it successfully parses is at least 1. -/
def bytesDisciplined : SessionState → List (List Char × Env) → Bool
  | _, [] => true
  | s, (t, e) :: r =>
    (!(tok "bytes:").isPrefixOf t ||
      (decide (s.token_progress ≠ TOKEN_PROGRESS_SEND) &&
       match parseDec (t.drop 6) with
       | some v => decide (1 ≤ v)
       | none => true)) &&
    bytesDisciplined (decode_token e s t).1 r

/-- Overwrite the positions k, k+1, …, k+|bs|-1 of a buffer with the bytes of
`bs`. -/
def overwriteAt (f : Nat → Nat) (k : Nat) (bs : List Nat) : Nat → Nat :=
  fun i => if k ≤ i ∧ i - k < bs.length then bs.getD (i - k) 0 else f i

/-- The state component of decode_token (same branch structure, effects and
result code dropped); `decode_token_fst` below proves it agrees with
decode_token. -/
def decodeState (e : Env) (s : SessionState) (t : List Char) : SessionState :=
  if t = tok "device?" then
    { s with token_progress := TOKEN_PROGRESS_NONE
             expected_num := 0
             byte_buffer_index := 0
             do_repeated_start := 0 }
  else if t = tok "bin" then { s with input_mode := MODE_BIN }
  else if (tok "bytes:").isPrefixOf t then
    { s with expected_num := (parseDec (t.drop 6)).getD s.expected_num }
  else if t = tok "send+hold" then
    (if s.expected_num = 0 then s
     else { s with byte_buffer_index := 0
                   token_progress := TOKEN_PROGRESS_SEND
                   do_repeated_start := 1 })
  else if (tok "tryaddr:").isPrefixOf t then s
  else if t = tok "send" then
    (if s.expected_num = 0 then s
     else { s with byte_buffer_index := 0
                   token_progress := TOKEN_PROGRESS_SEND
                   do_repeated_start := 0 })
  else if t = tok "recv" then
    (if s.expected_num = 0 then s
     else { s with byte_buffer_index := 0, byte_buffer := e.readBuf })
  else if (tok "m2m_resp:").isPrefixOf t then
    (if t.getD 9 (Char.ofNat 0) = '1' then { s with m2m_resp := 1 }
     else { s with m2m_resp := 0 })
  else if (tok "addr:0x").isPrefixOf t then
    { s with i2c_addr := ((parseHex2 (t.drop 7)).getD e.junk) % 256 }
  else if (tok "addr:").isPrefixOf t then
    { s with i2c_addr :=
        ((((parseDec (t.drop 5)).getD (Int.ofNat e.junk)).emod 4294967296).toNat) % 256 }
  else if t = tok "noecho" then { s with do_echo := 0 }
  else if t = tok "end_tok" then s
  else if s.token_progress = TOKEN_PROGRESS_SEND then
    (if t.length ≠ 2 then s
     else
      let v := (parseHex2 t).getD e.junk
      let buf' : Nat → Nat := fun i => if i = s.byte_buffer_index then v else s.byte_buffer i
      let idx' := (s.byte_buffer_index + 1) % 256
      if (idx' : Int) = s.expected_num then
        { s with byte_buffer := buf'
                 byte_buffer_index := 0
                 expected_num := 0
                 do_repeated_start := 0
                 token_progress := TOKEN_PROGRESS_NONE }
      else { s with byte_buffer := buf', byte_buffer_index := idx' })
  else s

/-- The session invariant claimed for SEND states: a non-negative declared
size, and while a send is pending the size is positive and strictly above the
write index. -/
def SendInv (s : SessionState) : Prop :=
  0 ≤ s.expected_num ∧
  (s.token_progress = TOKEN_PROGRESS_SEND →
     0 < s.expected_num ∧ (s.byte_buffer_index : Int) < s.expected_num)

/-! ### Basic lemmas about tokens and guards -/

theorem ne_of_len {l1 l2 : List Char} (h : l1.length ≠ l2.length) : l1 ≠ l2 :=
  fun he => h (congrArg List.length he)

theorem isPrefixOf_length_le :
    ∀ (l1 l2 : List Char), l1.isPrefixOf l2 = true → l1.length ≤ l2.length := by
  intro l1
  induction l1 with
  | nil =>
    intro l2 _
    simp
  | cons a t ih =>
    intro l2 h
    cases l2 with
    | nil => simp [List.isPrefixOf] at h
    | cons b t2 =>
      simp only [List.isPrefixOf, Bool.and_eq_true] at h
      have := ih t2 h.2
      simp only [List.length_cons]
      omega

theorem isPrefixOf_false_of_short {l1 l2 : List Char} (h : l2.length < l1.length) :
    l1.isPrefixOf l2 = false := by
  rw [Bool.eq_false_iff]
  intro hp
  have := isPrefixOf_length_le l1 l2 hp
  omega

theorem hexPairVal_length {t : List Char} {b : Nat} (h : hexPairVal t = some b) :
    t.length = 2 := by
  rcases t with _ | ⟨c1, _ | ⟨c2, _ | ⟨c3, r⟩⟩⟩ <;> simp_all [hexPairVal]

theorem hexPairVal_parse {t : List Char} {b : Nat} (h : hexPairVal t = some b) :
    parseHex2 t = some b := by
  rcases t with _ | ⟨c1, _ | ⟨c2, _ | ⟨c3, r⟩⟩⟩ <;>
    simp_all [hexPairVal, parseHex2] <;>
    rcases h1 : hexVal c1 with _ | d1 <;> rcases h2 : hexVal c2 with _ | d2 <;>
      simp_all

theorem hexPairVal_lt {t : List Char} {b : Nat} (h : hexPairVal t = some b) : b < 256 := by
  rcases t with _ | ⟨c1, _ | ⟨c2, _ | ⟨c3, r⟩⟩⟩ <;> simp_all [hexPairVal]
  rcases h1 : hexVal c1 with _ | d1 <;> rcases h2 : hexVal c2 with _ | d2 <;>
    simp_all [hexVal]
  split_ifs at h1 h2 <;> simp_all <;> omega

/-- Characterization of decode_token on a two-hex-digit payload token while a
send is in progress: none of the named-command guards can match a 2-character
token, so the payload branch runs. -/
theorem decode_send_hexPair (e : Env) (s : SessionState) (t : List Char) (b : Nat)
    (hp : s.token_progress = TOKEN_PROGRESS_SEND) (hb : hexPairVal t = some b) :
    decode_token e s t =
      if ((((s.byte_buffer_index + 1) % 256 : Nat) : Int) = s.expected_num) then
        ({ s with byte_buffer := fun i => if i = s.byte_buffer_index then b else s.byte_buffer i
                  byte_buffer_index := 0
                  expected_num := 0
                  do_repeated_start := 0
                  token_progress := TOKEN_PROGRESS_NONE },
         TOKEN_RESULT_LINE_COMPLETE,
         (if s.m2m_resp = 0 then
           [colBlue, .print ("Sending " ++ toString s.expected_num ++ " bytes\n"), colReset,
            .printBufHex ((List.range s.expected_num.toNat).map
              (fun i => if i = s.byte_buffer_index then b else s.byte_buffer i)) s.expected_num]
          else []) ++
         [.i2cWrite s.i2c_addr
            ((List.range s.expected_num.toNat).map
              (fun i => if i = s.byte_buffer_index then b else s.byte_buffer i))
            (s.do_repeated_start != 0)] ++
         (if (if e.writeOk then s.expected_num else PICO_ERROR_GENERIC) = PICO_ERROR_GENERIC then
           (if s.m2m_resp ≠ 0 then [.putc M2M_RESPONSE_PROT_ERR_CHAR]
            else
             [colRed, .print "Protocol error sending bytes! Does the I2C device exist?\n",
              colReset])
          else if s.m2m_resp ≠ 0 then [.putc M2M_RESPONSE_OK_CHAR] else []))
      else
        ({ s with byte_buffer := fun i => if i = s.byte_buffer_index then b else s.byte_buffer i
                  byte_buffer_index := (s.byte_buffer_index + 1) % 256 },
         TOKEN_RESULT_OK, []) := by
  have L := hexPairVal_length hb
  have P := hexPairVal_parse hb
  have g1 : t ≠ tok "device?" := ne_of_len (by rw [L]; decide)
  have g2 : t ≠ tok "bin" := ne_of_len (by rw [L]; decide)
  have g3 : (tok "bytes:").isPrefixOf t = false := isPrefixOf_false_of_short (by rw [L]; decide)
  have g4 : t ≠ tok "send+hold" := ne_of_len (by rw [L]; decide)
  have g5 : (tok "tryaddr:").isPrefixOf t = false := isPrefixOf_false_of_short (by rw [L]; decide)
  have g6 : t ≠ tok "send" := ne_of_len (by rw [L]; decide)
  have g7 : t ≠ tok "recv" := ne_of_len (by rw [L]; decide)
  have g8 : (tok "m2m_resp:").isPrefixOf t = false := isPrefixOf_false_of_short (by rw [L]; decide)
  have g9 : (tok "addr:0x").isPrefixOf t = false := isPrefixOf_false_of_short (by rw [L]; decide)
  have g10 : (tok "addr:").isPrefixOf t = false := isPrefixOf_false_of_short (by rw [L]; decide)
  have g11 : t ≠ tok "noecho" := ne_of_len (by rw [L]; decide)
  have g12 : t ≠ tok "end_tok" := ne_of_len (by rw [L]; decide)
  unfold decode_token
  rw [if_neg g1, if_neg g2, if_neg (by simp [g3]), if_neg g4, if_neg (by simp [g5]),
      if_neg g6, if_neg g7, if_neg (by simp [g8]), if_neg (by simp [g9]),
      if_neg (by simp [g10]), if_neg g11, if_neg g12, if_pos hp,
      if_neg (by simp [L])]
  simp only [P, Option.getD_some]

/-- C10: processing the `device?` token resets exactly the transfer state
(token_progress, expected_num, byte_buffer_index, do_repeated_start go to
their idle values) and leaves i2c_addr, input_mode, m2m_resp, do_echo and the
payload bytes unchanged. -/
theorem device_query_resets_transfer_state (e : Env) (s : SessionState) :
    (decode_token e s (tok "device?")).1.token_progress = TOKEN_PROGRESS_NONE ∧
    (decode_token e s (tok "device?")).1.expected_num = 0 ∧
    (decode_token e s (tok "device?")).1.byte_buffer_index = 0 ∧
    (decode_token e s (tok "device?")).1.do_repeated_start = 0 ∧
    (decode_token e s (tok "device?")).1.i2c_addr = s.i2c_addr ∧
    (decode_token e s (tok "device?")).1.input_mode = s.input_mode ∧
    (decode_token e s (tok "device?")).1.m2m_resp = s.m2m_resp ∧
    (decode_token e s (tok "device?")).1.do_echo = s.do_echo ∧
    (decode_token e s (tok "device?")).1.byte_buffer = s.byte_buffer := by
  simp [decode_token]

/-- Characterization of decode_token on any 2-character token that matches no
named command while a send is in progress: the token is consumed as a payload
byte whose value is the sscanf "%02X" result, or the uninitialized `val` when
no hex digit parses. -/
theorem decode_send_len2 (e : Env) (s : SessionState) (t : List Char)
    (hp : s.token_progress = TOKEN_PROGRESS_SEND) (hn : namedCommand t = false)
    (hl : t.length = 2) :
    decode_token e s t =
      (let v := (parseHex2 t).getD e.junk
       if ((((s.byte_buffer_index + 1) % 256 : Nat) : Int) = s.expected_num) then
        ({ s with byte_buffer := fun i => if i = s.byte_buffer_index then v else s.byte_buffer i
                  byte_buffer_index := 0
                  expected_num := 0
                  do_repeated_start := 0
                  token_progress := TOKEN_PROGRESS_NONE },
         TOKEN_RESULT_LINE_COMPLETE,
         (if s.m2m_resp = 0 then
           [colBlue, .print ("Sending " ++ toString s.expected_num ++ " bytes\n"), colReset,
            .printBufHex ((List.range s.expected_num.toNat).map
              (fun i => if i = s.byte_buffer_index then v else s.byte_buffer i)) s.expected_num]
          else []) ++
         [.i2cWrite s.i2c_addr
            ((List.range s.expected_num.toNat).map
              (fun i => if i = s.byte_buffer_index then v else s.byte_buffer i))
            (s.do_repeated_start != 0)] ++
         (if (if e.writeOk then s.expected_num else PICO_ERROR_GENERIC) = PICO_ERROR_GENERIC then
           (if s.m2m_resp ≠ 0 then [.putc M2M_RESPONSE_PROT_ERR_CHAR]
            else
             [colRed, .print "Protocol error sending bytes! Does the I2C device exist?\n",
              colReset])
          else if s.m2m_resp ≠ 0 then [.putc M2M_RESPONSE_OK_CHAR] else []))
       else
        ({ s with byte_buffer := fun i => if i = s.byte_buffer_index then v else s.byte_buffer i
                  byte_buffer_index := (s.byte_buffer_index + 1) % 256 },
         TOKEN_RESULT_OK, [])) := by
  simp only [namedCommand, Bool.or_eq_false_iff, beq_eq_false_iff_ne, ne_eq] at hn
  obtain ⟨⟨⟨⟨⟨⟨⟨⟨⟨⟨⟨g1, g2⟩, g3⟩, g4⟩, g5⟩, g6⟩, g7⟩, g8⟩, g9⟩, g10⟩, g11⟩, g12⟩ := hn
  unfold decode_token
  rw [if_neg g1, if_neg g2, if_neg (by simp [g3]), if_neg g4, if_neg (by simp [g5]),
      if_neg g6, if_neg g7, if_neg (by simp [g8]), if_neg (by simp [g9]),
      if_neg (by simp [g10]), if_neg g11, if_neg g12, if_pos hp,
      if_neg (by simp [hl])]

/-- C5 (amended): while a send is in progress, a non-command token is
rejected with a line-terminating error, without appending a payload byte,
exactly when its length differs from 2; a 2-character token is always
consumed as a payload byte (its value is the sscanf "%02X" parse, falling
back to the uninitialized `val` when the token has no leading hex digit) —
non-hex content of a length-2 token is NOT rejected. -/
theorem send_payload_token_malformed (e : Env) (s : SessionState) (t : List Char)
    (hp : s.token_progress = TOKEN_PROGRESS_SEND) (hn : namedCommand t = false) :
    (t.length ≠ 2 →
       decode_token e s t =
         (s, TOKEN_RESULT_LINE_COMPLETE,
          [colRed, Effect.print ("Invalid byte: " ++ String.mk t ++ "\n"), colReset])) ∧
    (t.length = 2 →
       (decode_token e s t).1.byte_buffer s.byte_buffer_index = (parseHex2 t).getD e.junk ∧
       ((((s.byte_buffer_index + 1) % 256 : Nat) : Int) ≠ s.expected_num →
          (decode_token e s t).1.byte_buffer_index = (s.byte_buffer_index + 1) % 256 ∧
          (decode_token e s t).2.1 = TOKEN_RESULT_OK ∧
          (decode_token e s t).2.2 = [])) := by
  constructor
  · intro hl
    simp only [namedCommand, Bool.or_eq_false_iff, beq_eq_false_iff_ne, ne_eq] at hn
    obtain ⟨⟨⟨⟨⟨⟨⟨⟨⟨⟨⟨g1, g2⟩, g3⟩, g4⟩, g5⟩, g6⟩, g7⟩, g8⟩, g9⟩, g10⟩, g11⟩, g12⟩ := hn
    unfold decode_token
    rw [if_neg g1, if_neg g2, if_neg (by simp [g3]), if_neg g4, if_neg (by simp [g5]),
        if_neg g6, if_neg g7, if_neg (by simp [g8]), if_neg (by simp [g9]),
        if_neg (by simp [g10]), if_neg g11, if_neg g12, if_pos hp, if_pos hl]
  · intro hl
    rw [decode_send_len2 e s t hp hn hl]
    constructor
    · split <;> simp
    · intro hne
      rw [if_neg hne]
      exact ⟨rfl, rfl, rfl⟩

theorem send_payload_token_malformed_witness :
    (decode_token env0 sendState3 (tok "XQ")).1.byte_buffer sendState3.byte_buffer_index
        = (parseHex2 (tok "XQ")).getD env0.junk ∧
    (decode_token env0 sendState3 (tok "XQ")).2.1 = TOKEN_RESULT_OK := by
  have h := (send_payload_token_malformed env0 sendState3 (tok "XQ")
      (by decide) (by decide)).2 (by decide)
  exact ⟨h.1, (h.2 (by decide)).2.1⟩

/-- C5 counterexample: the 2-character non-hex token "ZZ" during a send
(3 bytes expected) is not rejected — decode_token returns TOKEN_RESULT_OK
with no error output and a payload byte IS appended (the index advances). -/
theorem send_nonhex_token_appended :
    (decode_token env0 sendState3 (tok "ZZ")).2.1 = TOKEN_RESULT_OK ∧
    (decode_token env0 sendState3 (tok "ZZ")).1.byte_buffer_index = 1 ∧
    (decode_token env0 sendState3 (tok "ZZ")).2.2 = [] := by
  decide

/-- C6 (amended): with a positive expected_num, `recv` records the bus read
for expected_num bytes; on failure it emits the '~' protocol-error sentinel
only in M2M ASCII mode, or red error text in human mode, without routing the
buffer to a formatter — but in M2M binary input mode the failure is not
checked and the buffer is routed to the binary formatter regardless; with
expected_num = 0 it reports an error without invoking the read. -/
theorem recv_error_paths (e : Env) (s : SessionState) :
    (s.expected_num = 0 →
       decode_token e s (tok "recv") =
         (s, TOKEN_RESULT_LINE_COMPLETE,
          [colRed, Effect.print "No bytes expected\n", colReset])) ∧
    (0 < s.expected_num →
       (decode_token e s (tok "recv")).1 =
         { s with byte_buffer_index := 0, byte_buffer := e.readBuf } ∧
       (decode_token e s (tok "recv")).2.2 =
         Effect.i2cRead s.i2c_addr s.expected_num ::
          (if s.m2m_resp ≠ 0 then
            (if s.input_mode = MODE_ASCII then
              (if e.readOk then
                [Effect.m2mAsciiOut ((List.range s.expected_num.toNat).map e.readBuf)
                   s.expected_num]
               else [Effect.putc M2M_RESPONSE_PROT_ERR_CHAR])
             else
              [Effect.m2mBinOut ((List.range s.expected_num.toNat).map e.readBuf)
                 s.expected_num])
           else
            (if e.readOk then
              [Effect.printBufHex ((List.range s.expected_num.toNat).map e.readBuf)
                 s.expected_num]
             else
              [colRed,
               Effect.print "Protocol error reading bytes! Does the I2C device exist?\n",
               colReset]))) := by
  unfold decode_token
  rw [if_neg (by decide), if_neg (by decide), if_neg (by decide), if_neg (by decide),
      if_neg (by decide), if_neg (by decide), if_pos rfl]
  constructor
  · intro h0
    rw [if_pos h0]
  · intro hpos
    rw [if_neg (by omega)]
    refine ⟨rfl, ?_⟩
    cases hR : e.readOk
    · simp [hR, PICO_ERROR_GENERIC]
    · have hne : ¬(s.expected_num = PICO_ERROR_GENERIC) := by
        simp only [PICO_ERROR_GENERIC]
        omega
      simp [hR, hne]

theorem recv_error_paths_witness :
    (decode_token readFailEnv (expectState 2) (tok "recv")).2.2 =
      [Effect.i2cRead 0 2, colRed,
       Effect.print "Protocol error reading bytes! Does the I2C device exist?\n", colReset] := by
  have h := (recv_error_paths readFailEnv (expectState 2)).2 (by decide)
  rw [h.2]
  decide

/-- C6 counterexample: in M2M mode with binary input framing, a failing read
does NOT produce the '~' protocol-error sentinel; the invalid buffer is
routed to the binary output formatter instead. -/
theorem recv_bin_failure_routed_to_formatter :
    (decode_token readFailEnv recvFailBinState (tok "recv")).2.2 =
      [Effect.i2cRead 0 2, Effect.m2mBinOut [0, 0] 2] ∧
    Effect.putc M2M_RESPONSE_PROT_ERR_CHAR ∉
      (decode_token readFailEnv recvFailBinState (tok "recv")).2.2 := by
  decide

/-- C2 counterexample: the state reached from the initial state by the token
sequence `bytes:1`, `send`, `bytes:0` has token_progress = SEND with
expected_num = 0 — a `bytes:<n>` token processed while a send is in progress
does not preserve the claimed invariant. -/
theorem bytes_zero_during_send_breaks_invariant :
    (runT initState [(tok "bytes:1", env0), (tok "send", env0),
        (tok "bytes:0", env0)]).1.token_progress = TOKEN_PROGRESS_SEND ∧
    ¬ 0 < (runT initState [(tok "bytes:1", env0), (tok "send", env0),
        (tok "bytes:0", env0)]).1.expected_num := by
  decide

/-- In binary framing mode, a stream of zero bytes (which never contains the
magic trailer) advances the write index without bound: no reset ever fires. -/
theorem binRun_zeros : ∀ (l : List Nat), (∀ c ∈ l, c = 0) →
    ∀ fs : FramerState, (∀ i, fs.buf i = 0) →
      (binRun fs l).idx = fs.idx + l.length ∧ (∀ i, (binRun fs l).buf i = 0) := by
  intro l
  induction l with
  | nil =>
    intro _ fs hb
    exact ⟨by simp [binRun], by simpa [binRun] using hb⟩
  | cons c r ih =>
    intro hz fs hb
    have hc : c = 0 := hz c (List.mem_cons_self c r)
    set buf2 : Nat → Nat := fun i => if i = fs.idx then c else fs.buf i with hbuf2
    have hb' : ∀ i, buf2 i = 0 := by
      intro i
      by_cases h : i = fs.idx <;> simp [hbuf2, h, hc, hb]
    have hmm : magicMatch buf2 (fs.idx + 1) = false := by
      unfold magicMatch
      simp [hb']
    have hstep : (scan_uart_bin_step fs c).1 = { buf := buf2, idx := fs.idx + 1 } := by
      simp only [scan_uart_bin_step]
      rw [← hbuf2]
      split_ifs with h8 hm
      · rfl
      · simp [hmm] at hm
      · rfl
    have hr := ih (fun x hx => hz x (List.mem_cons_of_mem _ hx))
        (scan_uart_bin_step fs c).1 (by rw [hstep]; exact hb')
    constructor
    · show (binRun (scan_uart_bin_step fs c).1 r).idx = _
      rw [hr.1, hstep]
      simp [List.length_cons]
      omega
    · show ∀ i, (binRun (scan_uart_bin_step fs c).1 r).buf i = 0
      exact hr.2

/-- C4 (code-bug evidence): in binary framing mode the write index is NOT
reset at the buffer capacity — after 305 zero bytes (the full capacity of the
305-byte uart_buffer, with no magic trailer present) the index equals 305, so
the next incoming byte is stored at index 305, outside the buffer. -/
theorem scan_bin_overflow :
    (binRun initFramer (List.replicate uartBufCapacity 0)).idx = uartBufCapacity ∧
    ¬ (binRun initFramer (List.replicate uartBufCapacity 0)).idx < uartBufCapacity := by
  have h := binRun_zeros (List.replicate uartBufCapacity 0)
      (fun c hc => List.eq_of_mem_replicate hc) initFramer (fun i => rfl)
  constructor
  · rw [h.1]
    simp [initFramer]
  · rw [h.1]
    simp [initFramer]

/-- C7 (code-bug evidence): a line consisting of 20 non-space bytes followed
by the space separator makes process_line write the token terminator at index
20 of the 20-byte token array (valid indices are 0..19) — the tokenizer does
not bound its write index. -/
theorem process_line_token_overflow :
    (process_line env0 initState (List.replicate 20 97 ++ [32])).2 = tokenBufCapacity ∧
    ¬ (process_line env0 initState (List.replicate 20 97 ++ [32])).2 < tokenBufCapacity := by
  decide

theorem writesOf_append (l1 l2 : List Effect) :
    writesOf (l1 ++ l2) = writesOf l1 ++ writesOf l2 := by
  induction l1 with
  | nil => simp [writesOf]
  | cons h t ih => cases h <;> simp [writesOf, ih]

theorem overwriteAt_nil (f : Nat → Nat) (k : Nat) : overwriteAt f k [] = f := by
  funext i
  simp [overwriteAt]

theorem overwriteAt_cons (f : Nat → Nat) (k : Nat) (b : Nat) (bs : List Nat) :
    overwriteAt f k (b :: bs) =
      overwriteAt (fun i => if i = k then b else f i) (k + 1) bs := by
  funext i
  simp only [overwriteAt, List.length_cons]
  by_cases h1 : k ≤ i ∧ i - k < bs.length + 1
  · rw [if_pos h1]
    by_cases h2 : k + 1 ≤ i ∧ i - (k + 1) < bs.length
    · rw [if_pos h2]
      have hik : i - k = (i - (k + 1)) + 1 := by omega
      rw [hik]
      simp
    · rw [if_neg h2]
      have hik : i = k := by omega
      simp [hik]
  · rw [if_neg h1]
    have h2 : ¬(k + 1 ≤ i ∧ i - (k + 1) < bs.length) := by omega
    rw [if_neg h2]
    have hik : ¬ i = k := by omega
    simp [hik]

theorem map_range_overwriteAt_zero (f : Nat → Nat) (bs : List Nat) (m : Nat)
    (h : m = bs.length) :
    (List.range m).map (overwriteAt f 0 bs) = bs := by
  subst h
  apply List.ext_getElem
  · simp
  · intro i h1 h2
    simp only [List.getElem_map, List.getElem_range, overwriteAt]
    rw [if_pos ⟨Nat.zero_le i, by simpa using h2⟩]
    simp only [Nat.sub_zero]
    rw [List.getD_eq_getElem?_getD, List.getElem?_eq_getElem h2]
    rfl

theorem decode_bytes_step (e : Env) (s : SessionState) (t : List Char) (n : Int)
    (hpre : (tok "bytes:").isPrefixOf t = true)
    (hparse : parseDec (t.drop 6) = some n) :
    (decode_token e s t).1 = { s with expected_num := n } ∧
    writesOf (decode_token e s t).2.2 = [] := by
  have g1 : t ≠ tok "device?" := by
    intro h
    rw [h] at hpre
    exact absurd hpre (by decide)
  have g2 : t ≠ tok "bin" := by
    intro h
    rw [h] at hpre
    exact absurd hpre (by decide)
  unfold decode_token
  rw [if_neg g1, if_neg g2, if_pos hpre, hparse]
  simp only [Option.getD_some]
  refine ⟨by trivial, ?_⟩
  split_ifs <;> simp [writesOf, colBlue, colReset]

theorem decode_send_step (e : Env) (s : SessionState) (h : s.expected_num ≠ 0) :
    decode_token e s (tok "send") =
      ({ s with byte_buffer_index := 0
                token_progress := TOKEN_PROGRESS_SEND
                do_repeated_start := 0 },
       TOKEN_RESULT_OK, []) := by
  unfold decode_token
  rw [if_neg (by decide), if_neg (by decide), if_neg (by decide), if_neg (by decide),
      if_neg (by decide), if_pos rfl, if_neg h]

theorem decode_end_tok_step (e : Env) (s : SessionState) :
    (decode_token e s (tok "end_tok")).1 = s ∧
    writesOf (decode_token e s (tok "end_tok")).2.2 = [] := by
  unfold decode_token
  rw [if_neg (by decide), if_neg (by decide), if_neg (by decide), if_neg (by decide),
      if_neg (by decide), if_neg (by decide), if_neg (by decide), if_neg (by decide),
      if_neg (by decide), if_neg (by decide), if_neg (by decide), if_pos rfl]
  refine ⟨by trivial, ?_⟩
  split_ifs <;> simp [writesOf, colBlue, colReset]

/-- Completing a send: from a SEND state whose declared size fits in the
byte_buffer_index counter, processing exactly the missing number of
two-hex-digit tokens appends them in order and triggers the single i2c write
with the accumulated payload, then resets the transfer state. -/
theorem runT_send_fill :
    ∀ (ts : List (List Char)) (bs : List Nat) (es : List Env) (s : SessionState),
      List.Forall₂ (fun t b => hexPairVal t = some b) ts bs →
      es.length = ts.length →
      s.token_progress = TOKEN_PROGRESS_SEND →
      0 < bs.length →
      ((s.byte_buffer_index : Int) + bs.length = s.expected_num) →
      s.expected_num ≤ 255 →
      (runT s (ts.zip es)).1 =
        { s with byte_buffer := overwriteAt s.byte_buffer s.byte_buffer_index bs
                 byte_buffer_index := 0
                 expected_num := 0
                 do_repeated_start := 0
                 token_progress := TOKEN_PROGRESS_NONE } ∧
      writesOf (runT s (ts.zip es)).2 =
        [(s.i2c_addr,
          (List.range s.expected_num.toNat).map
            (overwriteAt s.byte_buffer s.byte_buffer_index bs),
          s.do_repeated_start != 0)] := by
  intro ts bs es s hf
  induction hf generalizing es s with
  | nil =>
    intro _ _ hpos _ _
    simp at hpos
  | @cons t b ts2 bs2 hb hf2 ih =>
    intro hes hp hpos hsum h255
    cases es with
    | nil => simp at hes
    | cons e es2 =>
      simp only [List.length_cons] at hes
      have hes2 : es2.length = ts2.length := by omega
      simp only [List.length_cons] at hsum
      have hidx : s.byte_buffer_index + 1 ≤ 255 := by
        push_cast at hsum
        omega
      have hmod : (s.byte_buffer_index + 1) % 256 = s.byte_buffer_index + 1 :=
        Nat.mod_eq_of_lt (by omega)
      have hstep := decode_send_hexPair e s t b hp hb
      by_cases hend : bs2 = []
      · subst hend
        cases hf2
        simp only [List.length_nil] at hsum hpos ⊢
        have htrig : ((((s.byte_buffer_index + 1) % 256 : Nat) : Int) = s.expected_num) := by
          rw [hmod]
          push_cast
          omega
        rw [if_pos htrig] at hstep
        have hov : overwriteAt s.byte_buffer s.byte_buffer_index [b] =
            fun i => if i = s.byte_buffer_index then b else s.byte_buffer i := by
          rw [overwriteAt_cons, overwriteAt_nil]
        simp only [List.zip_cons_cons, List.zip_nil_left, runT]
        rw [hstep, hov]
        refine ⟨rfl, ?_⟩
        rw [writesOf_append]
        split_ifs <;> simp [writesOf, writesOf_append, colRed, colBlue, colReset]
      · have hlen2 : 0 < bs2.length := List.length_pos.mpr hend
        have hnot : ¬ ((((s.byte_buffer_index + 1) % 256 : Nat) : Int) = s.expected_num) := by
          rw [hmod]
          push_cast at hsum ⊢
          omega
        rw [if_neg hnot] at hstep
        simp only [List.zip_cons_cons, runT]
        rw [hstep]
        dsimp only
        have ihr := ih es2
          { s with byte_buffer := fun i => if i = s.byte_buffer_index then b else s.byte_buffer i
                   byte_buffer_index := (s.byte_buffer_index + 1) % 256 }
          hes2 hp hlen2 (by simp only [hmod]; push_cast at hsum ⊢; omega) h255
        simp only [List.zip] at ihr
        rw [ihr.1]
        simp only [List.nil_append]
        rw [ihr.2]
        simp only [hmod]
        rw [← overwriteAt_cons]
        exact ⟨rfl, rfl⟩

/-- Partially filling a send: processing fewer two-hex-digit tokens than the
declared size leaves the send in progress, appends the bytes in order at the
current index, and performs no bus write. -/
theorem runT_send_partial :
    ∀ (ts : List (List Char)) (bs : List Nat) (es : List Env) (s : SessionState),
      List.Forall₂ (fun t b => hexPairVal t = some b) ts bs →
      es.length = ts.length →
      s.token_progress = TOKEN_PROGRESS_SEND →
      ((s.byte_buffer_index : Int) + bs.length < s.expected_num) →
      s.expected_num ≤ 255 →
      (runT s (ts.zip es)).1 =
        { s with byte_buffer := overwriteAt s.byte_buffer s.byte_buffer_index bs
                 byte_buffer_index := s.byte_buffer_index + bs.length } ∧
      (runT s (ts.zip es)).2 = [] := by
  intro ts bs es s hf
  induction hf generalizing es s with
  | nil =>
    intro _ _ _ _
    constructor
    · simp [runT, overwriteAt_nil, List.zip]
    · simp [runT, List.zip]
  | @cons t b ts2 bs2 hb hf2 ih =>
    intro hes hp hsum h255
    cases es with
    | nil => simp at hes
    | cons e es2 =>
      simp only [List.length_cons] at hes hsum
      have hes2 : es2.length = ts2.length := by omega
      have hidx : s.byte_buffer_index + 1 ≤ 255 := by
        push_cast at hsum
        omega
      have hmod : (s.byte_buffer_index + 1) % 256 = s.byte_buffer_index + 1 :=
        Nat.mod_eq_of_lt (by omega)
      have hstep := decode_send_hexPair e s t b hp hb
      have hnot : ¬ ((((s.byte_buffer_index + 1) % 256 : Nat) : Int) = s.expected_num) := by
        rw [hmod]
        push_cast at hsum ⊢
        omega
      rw [if_neg hnot] at hstep
      simp only [List.zip_cons_cons, runT]
      rw [hstep]
      dsimp only
      have ihr := ih es2
        { s with byte_buffer := fun i => if i = s.byte_buffer_index then b else s.byte_buffer i
                 byte_buffer_index := (s.byte_buffer_index + 1) % 256 }
        hes2 hp (by simp only [hmod]; push_cast at hsum ⊢; omega) h255
      simp only [List.zip] at ihr
      rw [ihr.1]
      simp only [List.nil_append]
      rw [ihr.2]
      constructor
      · simp only [hmod]
        rw [← overwriteAt_cons]
        have harith : s.byte_buffer_index + 1 + bs2.length =
            s.byte_buffer_index + (bs2.length + 1) := by omega
        rw [harith]
        rfl
      · rfl

/-- When the declared size does not fit the uint8 byte_buffer_index counter
(expected_num at least 256), payload tokens keep wrapping the index and the
write never triggers. -/
theorem runT_send_wrap :
    ∀ (ts : List (List Char)) (bs : List Nat) (es : List Env) (s : SessionState),
      List.Forall₂ (fun t b => hexPairVal t = some b) ts bs →
      es.length = ts.length →
      s.token_progress = TOKEN_PROGRESS_SEND →
      s.byte_buffer_index < 256 →
      256 ≤ s.expected_num →
      (runT s (ts.zip es)).1.token_progress = TOKEN_PROGRESS_SEND ∧
      (runT s (ts.zip es)).1.expected_num = s.expected_num ∧
      (runT s (ts.zip es)).1.byte_buffer_index = (s.byte_buffer_index + bs.length) % 256 ∧
      writesOf (runT s (ts.zip es)).2 = [] := by
  intro ts bs es s hf
  induction hf generalizing es s with
  | nil =>
    intro _ hp h256 hexp
    refine ⟨by simp [runT, List.zip, hp], by simp [runT, List.zip], ?_,
        by simp [runT, List.zip, writesOf]⟩
    simp [runT, List.zip]
    omega
  | @cons t b ts2 bs2 hb hf2 ih =>
    intro hes hp h256 hexp
    cases es with
    | nil => simp at hes
    | cons e es2 =>
      simp only [List.length_cons] at hes
      have hes2 : es2.length = ts2.length := by omega
      have hstep := decode_send_hexPair e s t b hp hb
      have hnot : ¬ ((((s.byte_buffer_index + 1) % 256 : Nat) : Int) = s.expected_num) := by
        have hlt : (s.byte_buffer_index + 1) % 256 < 256 := Nat.mod_lt _ (by omega)
        push_cast
        omega
      rw [if_neg hnot] at hstep
      simp only [List.zip_cons_cons, runT]
      rw [hstep]
      dsimp only
      have ihr := ih es2
        { s with byte_buffer := fun i => if i = s.byte_buffer_index then b else s.byte_buffer i
                 byte_buffer_index := (s.byte_buffer_index + 1) % 256 }
        hes2 hp (Nat.mod_lt _ (by omega)) hexp
      simp only [List.zip] at ihr
      refine ⟨ihr.1, ihr.2.1, ?_, ?_⟩
      · rw [ihr.2.2.1]
        simp only [List.length_cons]
        omega
      · simp only [List.nil_append]
        exact ihr.2.2.2

/-- C1 (amended: for 0 < n ≤ 255): after processing `bytes:<n>`, then `send`,
then exactly n two-hex-digit tokens, the i2c write is invoked exactly once
with exactly those n byte values in order (and without repeated-start), and
afterwards expected_num, token_progress, byte_buffer_index and
do_repeated_start are back at their idle values. -/
theorem bytes_then_send_roundtrip
    (s : SessionState) (tb : List Char) (eb esend : Env) (es : List Env)
    (ts : List (List Char)) (bs : List Nat) (n : Int)
    (hpre : (tok "bytes:").isPrefixOf tb = true)
    (hparse : parseDec (tb.drop 6) = some n)
    (h0 : 0 < n) (h255 : n ≤ 255)
    (hf : List.Forall₂ (fun t b => hexPairVal t = some b) ts bs)
    (hlen : (bs.length : Int) = n)
    (hes : es.length = ts.length) :
    writesOf (runT s ((tb, eb) :: (tok "send", esend) :: ts.zip es)).2 =
      [(s.i2c_addr, bs, false)] ∧
    (runT s ((tb, eb) :: (tok "send", esend) :: ts.zip es)).1.token_progress
        = TOKEN_PROGRESS_NONE ∧
    (runT s ((tb, eb) :: (tok "send", esend) :: ts.zip es)).1.expected_num = 0 ∧
    (runT s ((tb, eb) :: (tok "send", esend) :: ts.zip es)).1.byte_buffer_index = 0 ∧
    (runT s ((tb, eb) :: (tok "send", esend) :: ts.zip es)).1.do_repeated_start = 0 := by
  have hbs : 0 < bs.length := by omega
  have h1 := decode_bytes_step eb s tb n hpre hparse
  have hne : ({ s with expected_num := n } : SessionState).expected_num ≠ 0 := by
    show n ≠ 0
    omega
  have h2 := decode_send_step esend { s with expected_num := n } hne
  dsimp only at h2
  have h3 := runT_send_fill ts bs es
      { s with expected_num := n, byte_buffer_index := 0,
               token_progress := TOKEN_PROGRESS_SEND, do_repeated_start := 0 }
      hf hes rfl hbs
      (by show ((0 : Nat) : Int) + (bs.length : Int) = n; push_cast; omega)
      (by show n ≤ 255; exact h255)
  have hdata : (List.range n.toNat).map (overwriteAt s.byte_buffer 0 bs) = bs := by
    apply map_range_overwriteAt_zero
    omega
  simp only [runT]
  rw [h1.1, h2]
  dsimp only
  rw [writesOf_append, h1.2]
  simp only [List.nil_append]
  refine ⟨?_, ?_, ?_, ?_, ?_⟩
  · rw [h3.2]
    simp [hdata]
  · rw [h3.1]
  · rw [h3.1]
  · rw [h3.1]
  · rw [h3.1]

theorem forall₂_replicate {α β : Type} {R : α → β → Prop} {a : α} {b : β}
    (h : R a b) : ∀ n, List.Forall₂ R (List.replicate n a) (List.replicate n b) := by
  intro n
  induction n with
  | zero => exact List.Forall₂.nil
  | succ k ih => exact List.Forall₂.cons h ih

theorem bytes_then_send_roundtrip_witness :
    writesOf (runT initState ((tok "bytes:2", env0) :: (tok "send", env0) ::
        ([tok "01", tok "FF"].zip [env0, env0]))).2 = [(0, [1, 255], false)] ∧
    (runT initState ((tok "bytes:2", env0) :: (tok "send", env0) ::
        ([tok "01", tok "FF"].zip [env0, env0]))).1.token_progress = TOKEN_PROGRESS_NONE := by
  have h := bytes_then_send_roundtrip initState (tok "bytes:2") env0 env0 [env0, env0]
      [tok "01", tok "FF"] [1, 255] 2 (by decide) (by decide) (by decide) (by decide)
      (List.Forall₂.cons (by decide) (List.Forall₂.cons (by decide) List.Forall₂.nil))
      (by decide) (by decide)
  exact ⟨h.1, h.2.1⟩

set_option maxRecDepth 4096 in
set_option maxHeartbeats 2000000 in
/-- C1 counterexample: with n = 256 the uint8 byte_buffer_index wraps before
ever equalling expected_num, so after `bytes:256`, `send` and 256 two-hex-digit
tokens NO i2c write has been invoked and token_progress has not returned to
its idle value — the claim fails for n outside 1..255. -/
theorem bytes256_send_never_triggers :
    writesOf (runT initState ((tok "bytes:256", env0) :: (tok "send", env0) ::
        ((List.replicate 256 (tok "00")).zip (List.replicate 256 env0)))).2 = [] ∧
    (runT initState ((tok "bytes:256", env0) :: (tok "send", env0) ::
        ((List.replicate 256 (tok "00")).zip (List.replicate 256 env0)))).1.token_progress
      ≠ TOKEN_PROGRESS_NONE := by
  set rest := (List.replicate 256 (tok "00")).zip (List.replicate 256 env0) with hrest
  have h1 := decode_bytes_step env0 initState (tok "bytes:256") 256 (by decide) (by decide)
  have hne : ({ initState with expected_num := 256 } : SessionState).expected_num ≠ 0 := by
    show (256 : Int) ≠ 0
    decide
  have h2 := decode_send_step env0 { initState with expected_num := 256 } hne
  dsimp only at h2
  have hforall : List.Forall₂ (fun t b => hexPairVal t = some b)
      (List.replicate 256 (tok "00")) (List.replicate 256 0) :=
    forall₂_replicate (by decide) 256
  have h3 := runT_send_wrap (List.replicate 256 (tok "00")) (List.replicate 256 0)
      (List.replicate 256 env0)
      { initState with expected_num := 256, byte_buffer_index := 0,
                       token_progress := TOKEN_PROGRESS_SEND, do_repeated_start := 0 }
      hforall (by rw [List.length_replicate, List.length_replicate]) rfl
      (by show (0 : Nat) < 256; decide)
      (by show (256 : Int) ≤ 256; decide)
  rw [← hrest] at h3
  dsimp only at h3
  clear_value rest
  simp only [runT]
  rw [h1.1, h2]
  dsimp only
  rw [writesOf_append, h1.2]
  simp only [List.nil_append]
  constructor
  · exact h3.2.2.2
  · rw [h3.1]
    decide

theorem runT_append (s : SessionState) (l1 l2 : List (List Char × Env)) :
    runT s (l1 ++ l2) =
      ((runT (runT s l1).1 l2).1, (runT s l1).2 ++ (runT (runT s l1).1 l2).2) := by
  induction l1 generalizing s with
  | nil => simp [runT]
  | cons p r ih =>
    cases p
    simp [runT, ih, List.append_assoc]

theorem overwriteAt_zero_lt (f : Nat → Nat) (bs : List Nat) (i : Nat) (h : i < bs.length) :
    overwriteAt f 0 bs i = bs.getD i 0 := by
  simp [overwriteAt, h]

theorem map_range_overwriteAt_append (f : Nat → Nat) (bs1 bs2 : List Nat) (m : Nat)
    (h : m = bs1.length + bs2.length) :
    (List.range m).map (overwriteAt (overwriteAt f 0 bs1) bs1.length bs2) = bs1 ++ bs2 := by
  subst h
  apply List.ext_getElem
  · simp
  · intro i h1 h2
    simp only [List.getElem_map, List.getElem_range, overwriteAt]
    have hlen : i < bs1.length + bs2.length := by simpa using h2
    by_cases hc : bs1.length ≤ i ∧ i - bs1.length < bs2.length
    · rw [if_pos hc]
      rw [List.getElem_append_right hc.1]
      rw [List.getD_eq_getElem?_getD, List.getElem?_eq_getElem (by omega)]
      rfl
    · rw [if_neg hc]
      have hi : i < bs1.length := by omega
      rw [if_pos ⟨Nat.zero_le i, by omega⟩]
      rw [List.getElem_append_left hi]
      rw [List.getD_eq_getElem?_getD, List.getElem?_eq_getElem (by simpa using hi)]
      rfl

/-- C9 (amended: for 0 < n ≤ 255): with n bytes declared, a line holding
`send` and only k < n two-hex-digit tokens (ended by the synthesized end_tok)
leaves token_progress = SEND and byte_buffer_index = k with the k accumulated
bytes in place and no bus write; the next line's two-hex-digit tokens append
starting at index k, and when the payload reaches n bytes the single write of
the whole n-byte payload triggers and the transfer state resets. -/
theorem send_partial_line_resume
    (s : SessionState) (esend eend : Env) (es1 es2 : List Env)
    (ts1 ts2 : List (List Char)) (bs1 bs2 : List Nat) (n : Int)
    (hn : s.expected_num = n) (h0 : 0 < n) (h255 : n ≤ 255)
    (hf1 : List.Forall₂ (fun t b => hexPairVal t = some b) ts1 bs1)
    (hes1 : es1.length = ts1.length)
    (hk : (bs1.length : Int) < n)
    (hf2 : List.Forall₂ (fun t b => hexPairVal t = some b) ts2 bs2)
    (hes2 : es2.length = ts2.length)
    (hlen2 : (bs1.length : Int) + bs2.length = n) :
    let r1 := runT s ((tok "send", esend) :: (ts1.zip es1 ++ [(tok "end_tok", eend)]))
    let r2 := runT r1.1 (ts2.zip es2)
    r1.1.token_progress = TOKEN_PROGRESS_SEND ∧
    r1.1.byte_buffer_index = bs1.length ∧
    (∀ i, i < bs1.length → r1.1.byte_buffer i = bs1.getD i 0) ∧
    writesOf r1.2 = [] ∧
    writesOf r2.2 = [(s.i2c_addr, bs1 ++ bs2, false)] ∧
    r2.1.token_progress = TOKEN_PROGRESS_NONE ∧
    r2.1.expected_num = 0 ∧
    r2.1.byte_buffer_index = 0 := by
  have hne : s.expected_num ≠ 0 := by omega
  have h2 := decode_send_step esend s hne
  have hpart := runT_send_partial ts1 bs1 es1
      { s with byte_buffer_index := 0
               token_progress := TOKEN_PROGRESS_SEND
               do_repeated_start := 0 }
      hf1 hes1 rfl
      (by show ((0 : Nat) : Int) + (bs1.length : Int) < s.expected_num; push_cast; omega)
      (by show s.expected_num ≤ 255; omega)
  try dsimp only at hpart
  have hend := decode_end_tok_step eend
      { s with byte_buffer := overwriteAt s.byte_buffer 0 bs1
               byte_buffer_index := 0 + bs1.length
               token_progress := TOKEN_PROGRESS_SEND
               do_repeated_start := 0 }
  try dsimp only at hend
  have hfill := runT_send_fill ts2 bs2 es2
      { s with byte_buffer := overwriteAt s.byte_buffer 0 bs1
               byte_buffer_index := 0 + bs1.length
               token_progress := TOKEN_PROGRESS_SEND
               do_repeated_start := 0 }
      hf2 hes2 rfl (by omega)
      (by show ((0 + bs1.length : Nat) : Int) + (bs2.length : Int) = s.expected_num
          push_cast
          omega)
      (by show s.expected_num ≤ 255; omega)
  try dsimp only at hfill
  have hdata : (List.range s.expected_num.toNat).map
      (overwriteAt (overwriteAt s.byte_buffer 0 bs1) (0 + bs1.length) bs2) = bs1 ++ bs2 := by
    rw [Nat.zero_add]
    apply map_range_overwriteAt_append
    omega
  intro r1 r2
  have hr1 : r1.1 =
      { s with byte_buffer := overwriteAt s.byte_buffer 0 bs1
               byte_buffer_index := 0 + bs1.length
               token_progress := TOKEN_PROGRESS_SEND
               do_repeated_start := 0 } ∧
      writesOf r1.2 = [] := by
    show (runT s ((tok "send", esend) :: (ts1.zip es1 ++ [(tok "end_tok", eend)]))).1 = _ ∧
      writesOf (runT s ((tok "send", esend) :: (ts1.zip es1 ++ [(tok "end_tok", eend)]))).2 = _
    simp only [runT]
    rw [h2]
    dsimp only
    rw [runT_append, hpart.1, hpart.2]
    simp only [runT]
    rw [hend.1]
    constructor
    · rfl
    · simp only [List.nil_append, List.append_nil]
      exact hend.2
  refine ⟨by rw [hr1.1], by rw [hr1.1]; simp, ?_, hr1.2, ?_, ?_, ?_, ?_⟩
  · intro i hi
    rw [hr1.1]
    show overwriteAt s.byte_buffer 0 bs1 i = bs1.getD i 0
    exact overwriteAt_zero_lt s.byte_buffer bs1 i hi
  · show writesOf (runT r1.1 (ts2.zip es2)).2 = _
    rw [hr1.1, hfill.2, hdata]
    simp
  · show (runT r1.1 (ts2.zip es2)).1.token_progress = _
    rw [hr1.1, hfill.1]
  · show (runT r1.1 (ts2.zip es2)).1.expected_num = 0
    rw [hr1.1, hfill.1]
  · show (runT r1.1 (ts2.zip es2)).1.byte_buffer_index = 0
    rw [hr1.1, hfill.1]

theorem send_partial_line_resume_witness :
    (runT (expectState 3)
        ((tok "send", env0) :: ([tok "01"].zip [env0] ++ [(tok "end_tok", env0)]))).1.byte_buffer_index
      = 1 ∧
    writesOf (runT (runT (expectState 3)
        ((tok "send", env0) :: ([tok "01"].zip [env0] ++ [(tok "end_tok", env0)]))).1
        ([tok "02", tok "03"].zip [env0, env0])).2 = [(0, [1, 2, 3], false)] := by
  have h := send_partial_line_resume (expectState 3) env0 env0 [env0] [env0, env0]
      [tok "01"] [tok "02", tok "03"] [1] [2, 3] 3 rfl (by decide) (by decide)
      (List.Forall₂.cons (by decide) List.Forall₂.nil) (by decide) (by decide)
      (List.Forall₂.cons (by decide) (List.Forall₂.cons (by decide) List.Forall₂.nil))
      (by decide) (by decide)
  exact ⟨h.2.1, h.2.2.2.2.1⟩

set_option maxRecDepth 4096 in
set_option maxHeartbeats 2000000 in
/-- C9 counterexample: for n = 256 (outside 1..255) the resumed payload can
never reach expected_num — after `send` and an empty first line, feeding 256
two-hex-digit tokens on the next line triggers NO write and the send stays
pending, because the uint8 byte_buffer_index wraps. -/
theorem send256_resume_never_triggers :
    writesOf (runT (runT (expectState 256)
        ((tok "send", env0) :: [(tok "end_tok", env0)])).1
        ((List.replicate 256 (tok "00")).zip (List.replicate 256 env0))).2 = [] ∧
    (runT (runT (expectState 256) ((tok "send", env0) :: [(tok "end_tok", env0)])).1
        ((List.replicate 256 (tok "00")).zip (List.replicate 256 env0))).1.token_progress
      = TOKEN_PROGRESS_SEND := by
  have hne : (expectState 256).expected_num ≠ 0 := by
    show (256 : Int) ≠ 0
    decide
  have h2 := decode_send_step env0 (expectState 256) hne
  have hend := decode_end_tok_step env0
      { expectState 256 with byte_buffer_index := 0
                             token_progress := TOKEN_PROGRESS_SEND
                             do_repeated_start := 0 }
  have hr1 : (runT (expectState 256) ((tok "send", env0) :: [(tok "end_tok", env0)])).1 =
      { expectState 256 with byte_buffer_index := 0
                             token_progress := TOKEN_PROGRESS_SEND
                             do_repeated_start := 0 } := by
    simp only [runT]
    rw [h2]
    dsimp only
    rw [hend.1]
  set rest := (List.replicate 256 (tok "00")).zip (List.replicate 256 env0) with hrest
  have hforall := forall₂_replicate (R := fun t b => hexPairVal t = some b)
      (show hexPairVal (tok "00") = some 0 by decide) 256
  have h3 := runT_send_wrap (List.replicate 256 (tok "00")) (List.replicate 256 0)
      (List.replicate 256 env0)
      { expectState 256 with byte_buffer_index := 0
                             token_progress := TOKEN_PROGRESS_SEND
                             do_repeated_start := 0 }
      hforall (by rw [List.length_replicate, List.length_replicate]) rfl
      (by show (0 : Nat) < 256; decide)
      (by show (256 : Int) ≤ 256; decide)
  rw [← hrest] at h3
  clear_value rest
  rw [hr1]
  exact ⟨h3.2.2.2, h3.1⟩

theorem decode_token_fst (e : Env) (s : SessionState) (t : List Char) :
    (decode_token e s t).1 = decodeState e s t := by
  unfold decode_token decodeState
  by_cases h1 : t = tok "device?"
  · rw [if_pos h1, if_pos h1]
  · rw [if_neg h1, if_neg h1]
    by_cases h2 : t = tok "bin"
    · rw [if_pos h2, if_pos h2]
    · rw [if_neg h2, if_neg h2]
      by_cases h3 : (tok "bytes:").isPrefixOf t = true
      · rw [if_pos h3, if_pos h3]
      · rw [if_neg h3, if_neg h3]
        by_cases h4 : t = tok "send+hold"
        · rw [if_pos h4, if_pos h4]
          by_cases h4b : s.expected_num = 0
          · rw [if_pos h4b, if_pos h4b]
          · rw [if_neg h4b, if_neg h4b]
        · rw [if_neg h4, if_neg h4]
          by_cases h5 : (tok "tryaddr:").isPrefixOf t = true
          · rw [if_pos h5, if_pos h5]
          · rw [if_neg h5, if_neg h5]
            by_cases h6 : t = tok "send"
            · rw [if_pos h6, if_pos h6]
              by_cases h6b : s.expected_num = 0
              · rw [if_pos h6b, if_pos h6b]
              · rw [if_neg h6b, if_neg h6b]
            · rw [if_neg h6, if_neg h6]
              by_cases h7 : t = tok "recv"
              · rw [if_pos h7, if_pos h7]
                by_cases h7b : s.expected_num = 0
                · rw [if_pos h7b, if_pos h7b]
                · rw [if_neg h7b, if_neg h7b]
              · rw [if_neg h7, if_neg h7]
                by_cases h8 : (tok "m2m_resp:").isPrefixOf t = true
                · rw [if_pos h8, if_pos h8]
                  by_cases h8c : t.getD 9 (Char.ofNat 0) = '1'
                  · rw [if_pos h8c, if_pos h8c]
                  · rw [if_neg h8c, if_neg h8c]
                · rw [if_neg h8, if_neg h8]
                  by_cases h9 : (tok "addr:0x").isPrefixOf t = true
                  · rw [if_pos h9, if_pos h9]
                  · rw [if_neg h9, if_neg h9]
                    by_cases h10 : (tok "addr:").isPrefixOf t = true
                    · rw [if_pos h10, if_pos h10]
                    · rw [if_neg h10, if_neg h10]
                      by_cases h11 : t = tok "noecho"
                      · rw [if_pos h11, if_pos h11]
                      · rw [if_neg h11, if_neg h11]
                        by_cases h12 : t = tok "end_tok"
                        · rw [if_pos h12, if_pos h12]
                        · rw [if_neg h12, if_neg h12]
                          by_cases h13 : s.token_progress = TOKEN_PROGRESS_SEND
                          · rw [if_pos h13, if_pos h13]
                            by_cases h14 : t.length ≠ 2
                            · rw [if_pos h14, if_pos h14]
                            · rw [if_neg h14, if_neg h14]
                              dsimp only
                              by_cases h15 : ((((s.byte_buffer_index + 1) % 256 : Nat) : Int) = s.expected_num)
                              · rw [if_pos h15, if_pos h15]
                              · rw [if_neg h15, if_neg h15]
                          · rw [if_neg h13, if_neg h13]

theorem decodeState_preserves_SendInv (e : Env) (s : SessionState) (t : List Char)
    (hInv : SendInv s)
    (hB : (tok "bytes:").isPrefixOf t = true →
       s.token_progress ≠ TOKEN_PROGRESS_SEND ∧
       (∀ v, parseDec (t.drop 6) = some v → 1 ≤ v)) :
    SendInv (decodeState e s t) := by
  obtain ⟨hge, hsend⟩ := hInv
  unfold SendInv
  unfold decodeState
  by_cases h1 : t = tok "device?"
  · rw [if_pos h1]
    try dsimp only
    exact ⟨le_refl 0, fun h => by simp [TOKEN_PROGRESS_NONE, TOKEN_PROGRESS_SEND] at h⟩
  · rw [if_neg h1]
    by_cases h2 : t = tok "bin"
    · rw [if_pos h2]
      try dsimp only
      exact ⟨hge, hsend⟩
    · rw [if_neg h2]
      by_cases h3 : (tok "bytes:").isPrefixOf t = true
      · rw [if_pos h3]
        try dsimp only
        obtain ⟨hnp, hval⟩ := hB h3
        refine ⟨?_, fun h => absurd h hnp⟩
        rcases hp : parseDec (t.drop 6) with _ | v
        · simpa [hp] using hge
        · have h1v := hval v hp
          simp only [hp, Option.getD_some]
          omega
      · rw [if_neg h3]
        by_cases h4 : t = tok "send+hold"
        · rw [if_pos h4]
          by_cases h4b : s.expected_num = 0
          · rw [if_pos h4b]
            exact ⟨hge, hsend⟩
          · rw [if_neg h4b]
            try dsimp only
            refine ⟨hge, fun _ => ⟨by omega, by push_cast; omega⟩⟩
        · rw [if_neg h4]
          by_cases h5 : (tok "tryaddr:").isPrefixOf t = true
          · rw [if_pos h5]
            try dsimp only
            exact ⟨hge, hsend⟩
          · rw [if_neg h5]
            by_cases h6 : t = tok "send"
            · rw [if_pos h6]
              by_cases h6b : s.expected_num = 0
              · rw [if_pos h6b]
                exact ⟨hge, hsend⟩
              · rw [if_neg h6b]
                try dsimp only
                refine ⟨hge, fun _ => ⟨by omega, by push_cast; omega⟩⟩
            · rw [if_neg h6]
              by_cases h7 : t = tok "recv"
              · rw [if_pos h7]
                by_cases h7b : s.expected_num = 0
                · rw [if_pos h7b]
                  exact ⟨hge, hsend⟩
                · rw [if_neg h7b]
                  try dsimp only
                  refine ⟨hge, fun _ => ⟨by omega, by push_cast; omega⟩⟩
              · rw [if_neg h7]
                by_cases h8 : (tok "m2m_resp:").isPrefixOf t = true
                · rw [if_pos h8]
                  by_cases h8c : t.getD 9 (Char.ofNat 0) = '1'
                  · rw [if_pos h8c]
                    exact ⟨hge, hsend⟩
                  · rw [if_neg h8c]
                    exact ⟨hge, hsend⟩
                · rw [if_neg h8]
                  by_cases h9 : (tok "addr:0x").isPrefixOf t = true
                  · rw [if_pos h9]
                    try dsimp only
                    exact ⟨hge, hsend⟩
                  · rw [if_neg h9]
                    by_cases h10 : (tok "addr:").isPrefixOf t = true
                    · rw [if_pos h10]
                      try dsimp only
                      exact ⟨hge, hsend⟩
                    · rw [if_neg h10]
                      by_cases h11 : t = tok "noecho"
                      · rw [if_pos h11]
                        try dsimp only
                        exact ⟨hge, hsend⟩
                      · rw [if_neg h11]
                        by_cases h12 : t = tok "end_tok"
                        · rw [if_pos h12]
                          try dsimp only
                          exact ⟨hge, hsend⟩
                        · rw [if_neg h12]
                          by_cases h13 : s.token_progress = TOKEN_PROGRESS_SEND
                          · rw [if_pos h13]
                            by_cases h14 : t.length ≠ 2
                            · rw [if_pos h14]
                              exact ⟨hge, hsend⟩
                            · rw [if_neg h14]
                              dsimp only
                              by_cases h15 : ((((s.byte_buffer_index + 1) % 256 : Nat) : Int) = s.expected_num)
                              · rw [if_pos h15]
                                try dsimp only
                                exact ⟨le_refl 0, fun h => by simp [TOKEN_PROGRESS_NONE, TOKEN_PROGRESS_SEND] at h⟩
                              · rw [if_neg h15]
                                try dsimp only
                                obtain ⟨hE, hI⟩ := hsend h13
                                refine ⟨hge, fun _ => ⟨hE, ?_⟩⟩
                                push_cast at hI ⊢
                                omega
                          · rw [if_neg h13]
                            exact ⟨hge, hsend⟩

theorem runT_preserves_SendInv :
    ∀ (l : List (List Char × Env)) (s : SessionState),
      SendInv s → bytesDisciplined s l = true → SendInv (runT s l).1 := by
  intro l
  induction l with
  | nil =>
    intro s h _
    simpa [runT] using h
  | cons p r ih =>
    intro s hInv hd
    obtain ⟨t, e⟩ := p
    simp only [bytesDisciplined, Bool.and_eq_true] at hd
    obtain ⟨hd1, hd2⟩ := hd
    simp only [runT]
    apply ih
    · rw [decode_token_fst]
      apply decodeState_preserves_SendInv e s t ⟨hInv.1, hInv.2⟩
      intro hpre
      rw [hpre] at hd1
      simp only [Bool.not_true, Bool.false_or, Bool.and_eq_true,
        decide_eq_true_eq] at hd1
      obtain ⟨hd1a, hd1b⟩ := hd1
      refine ⟨hd1a, fun v hv => ?_⟩
      simp only [hv] at hd1b
      simpa using hd1b
    · exact hd2

/-- C2 (amended): the invariant — token_progress = SEND implies
expected_num > 0 and byte_buffer_index ≤ expected_num — holds in every state
reachable from the initial state, provided every `bytes:<n>` token is issued
while no send is in progress and declares n ≥ 1 (the bytesDisciplined side
condition); issuing `bytes:<n>` during a send does NOT preserve it. -/
theorem send_invariant_disciplined (l : List (List Char × Env))
    (hd : bytesDisciplined initState l = true) :
    (runT initState l).1.token_progress = TOKEN_PROGRESS_SEND →
      0 < (runT initState l).1.expected_num ∧
      ((runT initState l).1.byte_buffer_index : Int) ≤ (runT initState l).1.expected_num := by
  have h := runT_preserves_SendInv l initState
      ⟨le_refl 0, fun h => absurd h (by decide)⟩ hd
  intro hp
  obtain ⟨hE, hI⟩ := h.2 hp
  exact ⟨hE, le_of_lt hI⟩

theorem send_invariant_disciplined_witness :
    0 < (runT initState [(tok "bytes:2", env0), (tok "send", env0),
        (tok "01", env0)]).1.expected_num ∧
    ((runT initState [(tok "bytes:2", env0), (tok "send", env0),
        (tok "01", env0)]).1.byte_buffer_index : Int) ≤
      (runT initState [(tok "bytes:2", env0), (tok "send", env0),
        (tok "01", env0)]).1.expected_num := by
  exact send_invariant_disciplined
    [(tok "bytes:2", env0), (tok "send", env0), (tok "01", env0)]
    (by decide) (by decide)

theorem lor_one : ∀ b, b < 128 → 2 * b ||| 1 = 2 * b + 1 := by decide

set_option maxRecDepth 8192 in
theorem sendAddrBits_msb : ∀ b, b < 256 →
    sdaDrivesOf (sendAddrBits b 8) =
      (List.range 8).map (fun k => decide (b / 2 ^ (7 - k) % 2 = 1)) := by decide

/-- C8: for every 7-bit candidate address, the probe clocks out the byte
(address shifted left one bit with the read bit set) most-significant bit
first, samples SDA during the acknowledge clock pulse, returns 1 iff the
sampled line was low, and on every return path the trace ends with the
unconditional restoration of both pins to peripheral I2C function with
pull-ups re-enabled. -/
theorem bitbang_addr_probe (val : Nat) (sdaHigh : Bool) (h : val < 128) :
    ((bitbang_i2c_addr val sdaHigh).1 = 1 ↔ sdaHigh = false) ∧
    (bitbang_i2c_addr val sdaHigh).2 =
      bitbangStartSeq ++ sendAddrBits (2 * val + 1) 8 ++ bitbangAckSeq ++ bitbangRestoreSeq ∧
    sdaDrivesOf (sendAddrBits (2 * val + 1) 8) =
      (List.range 8).map (fun k => decide ((2 * val + 1) / 2 ^ (7 - k) % 2 = 1)) ∧
    (∃ pre, (bitbang_i2c_addr val sdaHigh).2 = pre ++ bitbangRestoreSeq) := by
  have hv : val % 256 = val := Nat.mod_eq_of_lt (by omega)
  have h2v : val % 256 * 2 % 256 = 2 * val := by
    rw [hv, Nat.mod_eq_of_lt (by omega)]
    omega
  have haddr : (val % 256 * 2 % 256) ||| 1 = 2 * val + 1 := by
    rw [h2v]
    exact lor_one val h
  have htr : (bitbang_i2c_addr val sdaHigh).2 =
      bitbangStartSeq ++ sendAddrBits (2 * val + 1) 8 ++ bitbangAckSeq ++ bitbangRestoreSeq := by
    simp only [bitbang_i2c_addr]
    rw [haddr]
  refine ⟨?_, htr, ?_, ?_⟩
  · cases sdaHigh <;> simp [bitbang_i2c_addr]
  · exact sendAddrBits_msb (2 * val + 1) (by omega)
  · exact ⟨bitbangStartSeq ++ sendAddrBits (2 * val + 1) 8 ++ bitbangAckSeq, htr⟩

theorem bitbang_addr_probe_witness :
    ((bitbang_i2c_addr 11 false).1 = 1 ↔ (false : Bool) = false) ∧
    (bitbang_i2c_addr 11 false).2 =
      bitbangStartSeq ++ sendAddrBits 23 8 ++ bitbangAckSeq ++ bitbangRestoreSeq ∧
    sdaDrivesOf (sendAddrBits 23 8) =
      (List.range 8).map (fun k => decide (23 / 2 ^ (7 - k) % 2 = 1)) ∧
    (∃ pre, (bitbang_i2c_addr 11 false).2 = pre ++ bitbangRestoreSeq) :=
  bitbang_addr_probe 11 false (by decide)

theorem m2mAsciiGo_ne_nil (bs : List Nat) (i : Nat) (rs : List (Option Char)) :
    m2mAsciiGo bs i rs ≠ [] := by
  cases bs <;> simp [m2mAsciiGo]

theorem getLast?_cons_of_ne_nil {α : Type} (a : α) (l : List α) (h : l ≠ []) :
    (a :: l).getLast? = l.getLast? := by
  cases l
  · exact absurd rfl h
  · rw [List.getLast?_cons_cons]

theorem hexEmitted_hex (b : Nat) (l : List MOut) :
    hexEmitted (.hex b :: l) = b :: hexEmitted l := by
  simp [hexEmitted]

theorem hexEmitted_ch (c : Char) (l : List MOut) :
    hexEmitted (.ch c :: l) = hexEmitted l := by
  simp [hexEmitted]

theorem contCount_cons (o : MOut) (l : List MOut) :
    contCount (o :: l) = (if o = .ch M2M_RESPONSE_CONTINUE_CHAR then 1 else 0) + contCount l := by
  simp only [contCount, List.count_cons, beq_iff_eq]
  split_ifs <;> omega

theorem go_cons_noB (b : Nat) (bs : List Nat) (i : Nat) (rs : List (Option Char))
    (h : ¬ i % 16 = 15) :
    m2mAsciiGo (b :: bs) i rs = .hex b :: m2mAsciiGo bs (i + 1) rs := by
  simp [m2mAsciiGo, h]

theorem go_cons_grant (b : Nat) (bs : List Nat) (i : Nat) (rs : List (Option Char))
    (h : i % 16 = 15) :
    m2mAsciiGo (b :: bs) i (some M2M_RESPONSE_CONTINUE_CHAR :: rs) =
      .hex b :: .ch M2M_RESPONSE_CONTINUE_CHAR :: m2mAsciiGo bs (i + 1) rs := by
  simp only [m2mAsciiGo, if_pos h, List.headD_cons, List.tail_cons]
  rw [if_neg (by decide), if_neg (by simp)]

theorem go_cons_abort (b : Nat) (bs : List Nat) (i : Nat) (r : Option Char)
    (rs : List (Option Char)) (h : i % 16 = 15) (hr : r = some M2M_RESPONSE_ERR_CHAR) :
    m2mAsciiGo (b :: bs) i (r :: rs) =
      [.hex b, .ch M2M_RESPONSE_CONTINUE_CHAR, .ch M2M_RESPONSE_OK_CHAR] := by
  simp only [m2mAsciiGo, if_pos h, List.headD_cons, List.tail_cons]
  rw [if_pos hr]

theorem go_cons_err (b : Nat) (bs : List Nat) (i : Nat) (r : Option Char)
    (rs : List (Option Char)) (h : i % 16 = 15)
    (hx : r ≠ some M2M_RESPONSE_ERR_CHAR) (hc : r ≠ some M2M_RESPONSE_CONTINUE_CHAR) :
    m2mAsciiGo (b :: bs) i (r :: rs) =
      [.hex b, .ch M2M_RESPONSE_CONTINUE_CHAR, .ch M2M_RESPONSE_ERR_CHAR] := by
  simp only [m2mAsciiGo, if_pos h, List.headD_cons, List.tail_cons]
  rw [if_neg hx, if_pos hc]

theorem go_cons_timeout (b : Nat) (bs : List Nat) (i : Nat) (h : i % 16 = 15) :
    m2mAsciiGo (b :: bs) i [] =
      [.hex b, .ch M2M_RESPONSE_CONTINUE_CHAR, .ch M2M_RESPONSE_ERR_CHAR] := by
  simp only [m2mAsciiGo, if_pos h, List.headD_nil]
  rw [if_neg (by decide), if_pos (by decide)]

theorem handshakeCount_eq : ∀ (n i : Nat), handshakeCount i n = (n + i % 16) / 16 := by
  intro n
  induction n with
  | zero =>
    intro i
    simp only [handshakeCount]
    omega
  | succ k ih =>
    intro i
    simp only [handshakeCount]
    rw [ih (i + 1)]
    split_ifs with h <;> omega

/-- Full transfer: when the host grants every handshake, the stream carries
exactly the buffer's bytes in order, one CONTINUE per 16-byte boundary, and a
final OK. -/
theorem m2mAsciiGo_full :
    ∀ (bs : List Nat) (i m : Nat), handshakeCount i bs.length ≤ m →
      hexEmitted (m2mAsciiGo bs i (List.replicate m (some M2M_RESPONSE_CONTINUE_CHAR))) = bs ∧
      (m2mAsciiGo bs i (List.replicate m (some M2M_RESPONSE_CONTINUE_CHAR))).getLast?
        = some (.ch M2M_RESPONSE_OK_CHAR) ∧
      contCount (m2mAsciiGo bs i (List.replicate m (some M2M_RESPONSE_CONTINUE_CHAR)))
        = handshakeCount i bs.length := by
  intro bs
  induction bs with
  | nil =>
    intro i m _
    refine ⟨rfl, rfl, ?_⟩
    rfl
  | cons b bs2 ih =>
    intro i m hm
    simp only [List.length_cons, handshakeCount] at hm ⊢
    by_cases hb : i % 16 = 15
    · rw [if_pos hb] at hm ⊢
      cases m with
      | zero => omega
      | succ m2 =>
        rw [List.replicate_succ, go_cons_grant b bs2 i _ hb]
        have ihr := ih (i + 1) m2 (by omega)
        refine ⟨?_, ?_, ?_⟩
        · rw [hexEmitted_hex, hexEmitted_ch, ihr.1]
        · rw [getLast?_cons_of_ne_nil _ _ (by simp),
              getLast?_cons_of_ne_nil _ _ (m2mAsciiGo_ne_nil bs2 (i + 1) _), ihr.2.1]
        · rw [contCount_cons, contCount_cons, ihr.2.2]
          simp
    · rw [if_neg hb] at hm ⊢
      rw [go_cons_noB b bs2 i _ hb]
      have ihr := ih (i + 1) m (by omega)
      refine ⟨?_, ?_, ?_⟩
      · rw [hexEmitted_hex, ihr.1]
      · rw [getLast?_cons_of_ne_nil _ _ (m2mAsciiGo_ne_nil bs2 (i + 1) _), ihr.2.1]
      · rw [contCount_cons, ihr.2.2]
        simp

/-- Aborted transfer: after j granted handshakes, a reply that is not
CONTINUE stops the stream right at the (j+1)-th chunk boundary — exactly the
first 16(j+1)-i%16 bytes are emitted, then OK for an ABORT ('X') reply and
ERROR for anything else (including timeout). -/
theorem m2mAsciiGo_stop :
    ∀ (bs : List Nat) (i j : Nat) (r : Option Char) (rs2 : List (Option Char)),
      r ≠ some M2M_RESPONSE_CONTINUE_CHAR →
      j + 1 ≤ handshakeCount i bs.length →
      hexEmitted (m2mAsciiGo bs i
          (List.replicate j (some M2M_RESPONSE_CONTINUE_CHAR) ++ r :: rs2))
        = bs.take (16 * (j + 1) - i % 16) ∧
      (m2mAsciiGo bs i
          (List.replicate j (some M2M_RESPONSE_CONTINUE_CHAR) ++ r :: rs2)).getLast?
        = some (.ch (if r = some M2M_RESPONSE_ERR_CHAR then M2M_RESPONSE_OK_CHAR
                     else M2M_RESPONSE_ERR_CHAR)) := by
  intro bs
  induction bs with
  | nil =>
    intro i j r rs2 hr hj
    simp [handshakeCount] at hj
  | cons b bs2 ih =>
    intro i j r rs2 hr hj
    simp only [List.length_cons, handshakeCount] at hj
    by_cases hb : i % 16 = 15
    · rw [if_pos hb] at hj
      cases j with
      | zero =>
        simp only [List.replicate, List.nil_append]
        by_cases hx : r = some M2M_RESPONSE_ERR_CHAR
        · rw [go_cons_abort b bs2 i r rs2 hb hx]
          constructor
          · rw [hexEmitted_hex, hexEmitted_ch, hexEmitted_ch]
            have ht : 16 * (0 + 1) - i % 16 = 1 := by omega
            rw [ht]
            rfl
          · simp [hx]
        · rw [go_cons_err b bs2 i r rs2 hb hx hr]
          constructor
          · rw [hexEmitted_hex, hexEmitted_ch, hexEmitted_ch]
            have ht : 16 * (0 + 1) - i % 16 = 1 := by omega
            rw [ht]
            rfl
          · simp [hx]
      | succ j2 =>
        rw [List.replicate_succ, List.cons_append, go_cons_grant b bs2 i _ hb]
        have ihr := ih (i + 1) j2 r rs2 hr (by rw [handshakeCount_eq] at hj ⊢; omega)
        constructor
        · rw [hexEmitted_hex, hexEmitted_ch, ihr.1]
          have harith : 16 * (j2 + 1 + 1) - i % 16 = (16 * (j2 + 1) - (i + 1) % 16) + 1 := by
            omega
          rw [harith, List.take_succ_cons]
        · rw [getLast?_cons_of_ne_nil _ _ (by simp),
              getLast?_cons_of_ne_nil _ _ (m2mAsciiGo_ne_nil bs2 (i + 1) _), ihr.2]
    · rw [if_neg hb] at hj
      rw [go_cons_noB b bs2 i _ hb]
      have ihr := ih (i + 1) j r rs2 hr (by rw [handshakeCount_eq] at hj ⊢; omega)
      constructor
      · rw [hexEmitted_hex, ihr.1]
        have harith : 16 * (j + 1) - i % 16 = (16 * (j + 1) - (i + 1) % 16) + 1 := by omega
        rw [harith, List.take_succ_cons]
      · rw [getLast?_cons_of_ne_nil _ _ (m2mAsciiGo_ne_nil bs2 (i + 1) _), ihr.2]

/-- Chunk-boundary safety: the number of bytes emitted never exceeds the
buffer length nor one chunk beyond the granted prefix of replies. -/
theorem m2mAsciiGo_bound :
    ∀ (bs : List Nat) (i : Nat) (rs : List (Option Char)),
      (hexEmitted (m2mAsciiGo bs i rs)).length ≤
        min bs.length (16 * (grantedCount rs + 1) - i % 16) := by
  intro bs
  induction bs with
  | nil =>
    intro i rs
    simp [m2mAsciiGo, hexEmitted]
  | cons b bs2 ih =>
    intro i rs
    by_cases hb : i % 16 = 15
    · rcases rs with _ | ⟨r, rs2⟩
      · rw [go_cons_timeout b bs2 i hb]
        rw [hexEmitted_hex, hexEmitted_ch, hexEmitted_ch]
        simp only [grantedCount, List.length_cons, List.length_nil, hexEmitted]
        simp
        omega
      · by_cases hg : r = some M2M_RESPONSE_CONTINUE_CHAR
        · subst hg
          rw [go_cons_grant b bs2 i rs2 hb]
          have ihr := ih (i + 1) rs2
          rw [hexEmitted_hex, hexEmitted_ch]
          have hgp : grantedCount (some M2M_RESPONSE_CONTINUE_CHAR :: rs2) =
              grantedCount rs2 + 1 := by simp [grantedCount]
          rw [hgp]
          simp only [List.length_cons]
          omega
        · by_cases hx : r = some M2M_RESPONSE_ERR_CHAR
          · rw [go_cons_abort b bs2 i r rs2 hb hx]
            rw [hexEmitted_hex, hexEmitted_ch, hexEmitted_ch]
            simp only [grantedCount, if_neg hg, List.length_cons, hexEmitted]
            simp
            omega
          · rw [go_cons_err b bs2 i r rs2 hb hx hg]
            rw [hexEmitted_hex, hexEmitted_ch, hexEmitted_ch]
            simp only [grantedCount, if_neg hg, List.length_cons, hexEmitted]
            simp
            omega
    · rw [go_cons_noB b bs2 i rs hb]
      have ihr := ih (i + 1) rs
      rw [hexEmitted_hex]
      simp only [List.length_cons]
      omega

/-- C3: print_buf_m2m_ascii emits the hex encoding of the bytes in order
with a CONTINUE sentinel after every 16th byte; a CONTINUE reply proceeds, an
'X' reply makes it emit OK and stop, any other reply or timeout makes it emit
ERROR and stop, and reaching the end of the buffer emits OK; no byte is
emitted beyond a 16-byte chunk boundary unless the reply there was CONTINUE;
a 32-byte buffer with all replies CONTINUE yields exactly two CONTINUE
handshakes and a final OK. -/
theorem m2m_ascii_flow_control :
    (∀ (bs : List Nat) (m : Nat), bs.length / 16 ≤ m →
       hexEmitted (print_buf_m2m_ascii bs
           (List.replicate m (some M2M_RESPONSE_CONTINUE_CHAR))) = bs ∧
       (print_buf_m2m_ascii bs
           (List.replicate m (some M2M_RESPONSE_CONTINUE_CHAR))).getLast?
         = some (.ch M2M_RESPONSE_OK_CHAR) ∧
       contCount (print_buf_m2m_ascii bs
           (List.replicate m (some M2M_RESPONSE_CONTINUE_CHAR))) = bs.length / 16) ∧
    (∀ (bs : List Nat) (j : Nat) (r : Option Char) (rs2 : List (Option Char)),
       r ≠ some M2M_RESPONSE_CONTINUE_CHAR → 16 * (j + 1) ≤ bs.length →
       hexEmitted (print_buf_m2m_ascii bs
           (List.replicate j (some M2M_RESPONSE_CONTINUE_CHAR) ++ r :: rs2))
         = bs.take (16 * (j + 1)) ∧
       (print_buf_m2m_ascii bs
           (List.replicate j (some M2M_RESPONSE_CONTINUE_CHAR) ++ r :: rs2)).getLast?
         = some (.ch (if r = some M2M_RESPONSE_ERR_CHAR then M2M_RESPONSE_OK_CHAR
                      else M2M_RESPONSE_ERR_CHAR))) ∧
    (∀ (bs : List Nat) (rs : List (Option Char)),
       (hexEmitted (print_buf_m2m_ascii bs rs)).length ≤
         min bs.length (16 * (grantedCount rs + 1))) ∧
    (∀ bs : List Nat, bs.length = 32 →
       contCount (print_buf_m2m_ascii bs
           [some M2M_RESPONSE_CONTINUE_CHAR, some M2M_RESPONSE_CONTINUE_CHAR]) = 2 ∧
       (print_buf_m2m_ascii bs
           [some M2M_RESPONSE_CONTINUE_CHAR, some M2M_RESPONSE_CONTINUE_CHAR]).getLast?
         = some (.ch M2M_RESPONSE_OK_CHAR) ∧
       hexEmitted (print_buf_m2m_ascii bs
           [some M2M_RESPONSE_CONTINUE_CHAR, some M2M_RESPONSE_CONTINUE_CHAR]) = bs) := by
  have hc0 : ∀ n : Nat, handshakeCount 0 n = n / 16 := by
    intro n
    rw [handshakeCount_eq]
    omega
  refine ⟨?_, ?_, ?_, ?_⟩
  · intro bs m hm
    have h := m2mAsciiGo_full bs 0 m (by rw [hc0]; exact hm)
    rw [hc0] at h
    exact h
  · intro bs j r rs2 hr hlen
    have h := m2mAsciiGo_stop bs 0 j r rs2 hr (by rw [hc0]; omega)
    simpa using h
  · intro bs rs
    have h := m2mAsciiGo_bound bs 0 rs
    simpa using h
  · intro bs h32
    have h := m2mAsciiGo_full bs 0 2 (by rw [hc0, h32])
    rw [hc0, h32] at h
    have hrep : List.replicate 2 (some M2M_RESPONSE_CONTINUE_CHAR) =
        [some M2M_RESPONSE_CONTINUE_CHAR, some M2M_RESPONSE_CONTINUE_CHAR] := rfl
    rw [hrep] at h
    exact ⟨h.2.2, h.2.1, h.1⟩

theorem m2m_ascii_flow_control_witness :
    hexEmitted (print_buf_m2m_ascii [17, 34]
        (List.replicate 0 (some M2M_RESPONSE_CONTINUE_CHAR))) = [17, 34] ∧
    contCount (print_buf_m2m_ascii (List.range 32)
        [some M2M_RESPONSE_CONTINUE_CHAR, some M2M_RESPONSE_CONTINUE_CHAR]) = 2 ∧
    hexEmitted (print_buf_m2m_ascii [1, 2, 3]
        (List.replicate 0 (some M2M_RESPONSE_CONTINUE_CHAR))) = [1, 2, 3] := by
  have h1 := m2m_ascii_flow_control.1 [17, 34] 0 (by decide)
  have h4 := m2m_ascii_flow_control.2.2.2 (List.range 32) (by simp)
  have h5 := m2m_ascii_flow_control.1 [1, 2, 3] 0 (by decide)
  exact ⟨h1.1, h4.1, h5.1⟩
